import Mathlib

/-
  Verification of the card-battle match engine.

  Shallow embedding of the Python sources under src/card_battle/
  (models.py, effects.py, actions.py, engine.py).  Python machine
  integers are arbitrary-precision, so `Int`/`Nat` are exact models.
  Mutable in-place updates are modelled by explicit state passing;
  code paths that raise (bad index, unknown effect template, missing
  dict key, failed assert) return `none`.
-/

namespace CardBattle

/-- Effect parameter map (`dict[str, Any]` in models.py).  The card data
only ever uses the integer keys atk / hp / amount / n / max_hp; a missing
key models `KeyError` (absent) and `params.get(k, 0)` uses `getD 0`. -/
structure Params where
  atk : Option Int := none
  hp : Option Int := none
  amount : Option Int := none
  n : Option Nat := none
  max_hp : Option Int := none
deriving DecidableEq, Repr

/-- Card definition (models.py, immutable). -/
structure Card where
  id : String
  name : String
  cost : Int
  card_type : String
  tags : List String := []
  template : String
  params : Params
  rarity : String := "common"
deriving DecidableEq, Repr

/-- Convenience property `Card.is_unit` from models.py. -/
def Card.is_unit (c : Card) : Bool := c.card_type == "unit"

/-- DeckEntry (models.py). -/
structure DeckEntry where
  card_id : String
  count : Nat
deriving DecidableEq, Repr

/-- DeckDef (models.py). -/
structure DeckDef where
  deck_id : String
  entries : List DeckEntry
deriving DecidableEq, Repr

/-- In-play unit instance (models.py, mutable). -/
structure UnitInstance where
  uid : Nat
  card_id : String
  atk : Int
  hp : Int
  can_attack : Bool := false
deriving DecidableEq, Repr

/-- Per-player mutable state (models.py). -/
structure PlayerState where
  hp : Int := 20
  mana_max : Int := 0
  mana : Int := 0
  deck : List String := []
  hand : List String := []
  board : List UnitInstance := []
  graveyard : List String := []
deriving DecidableEq, Repr

/-- Game result (models.py). -/
inductive GameResult where
  | PLAYER_0_WIN
  | PLAYER_1_WIN
  | DRAW
deriving DecidableEq, Repr

/-- Modelled from the spec: the `CombatState` dataclass is imported from
card_battle.models by actions.py, engine.py and the tests, but models.py
as given does not declare it.  Spec section 3: "CombatState (ephemeral
...): attacker uid list (declared order preserved) and a blocks map from
attacker uid to blocker uid".  `blocks` is an association list
attacker-uid to blocker-uid with dict semantics (unique keys, insertion
order, later writes overwrite). -/
structure CombatState where
  attackers : List Nat := []
  blocks : List (Nat × Nat) := []
deriving DecidableEq, Repr

/-- Game phase.  Modelled from the spec (section 3): the `phase` field is
assigned and read on GameState throughout engine.py / actions.py as one of
the strings "main", "combat_attack", "combat_block", "end", but models.py
as given does not declare the field; the spec fixes this exact value set. -/
inductive Phase where
  | main
  | combat_attack
  | combat_block
  | endp
deriving DecidableEq, Repr

/-- Match-level game state (models.py, plus the `phase` / `combat`
attributes assigned by the engine — see `Phase` and `CombatState`).
The Python `random.Random` object is modelled as an abstract rng state
(a `Nat`), advanced only by the `RngImpl` operations used in init_game. -/
structure GameState where
  turn : Nat
  active_player : Nat
  players : PlayerState × PlayerState
  next_uid : Nat
  result : Option GameResult
  rng : Nat
  card_db : List (String × Card)
  phase : Phase := Phase.main
  combat : Option CombatState := none
deriving DecidableEq, Repr

/-- Index of the non-active player (models.py `opponent_idx`). -/
def GameState.opponent_idx (gs : GameState) : Nat := 1 - gs.active_player

/-- Player lookup by index.  The engine only ever indexes with 0 or 1. -/
def GameState.player (gs : GameState) (i : Nat) : PlayerState :=
  if i = 0 then gs.players.1 else gs.players.2

/-- Replace the player at index `i`. -/
def GameState.setPlayer (gs : GameState) (i : Nat) (p : PlayerState) : GameState :=
  if i = 0 then { gs with players := (p, gs.players.2) }
  else { gs with players := (gs.players.1, p) }

/-- Update the player at index `i` in place. -/
def GameState.updatePlayer (gs : GameState) (i : Nat) (f : PlayerState → PlayerState) :
    GameState :=
  gs.setPlayer i (f (gs.player i))

/-- models.py `active`. -/
def GameState.active (gs : GameState) : PlayerState := gs.player gs.active_player

/-- models.py `opponent`. -/
def GameState.opponent (gs : GameState) : PlayerState := gs.player gs.opponent_idx

/-- Card catalog lookup (`gs.card_db[card_id]`); `none` models `KeyError`.
dict keys are unique, so first match equals Python dict lookup. -/
def cardLookup (db : List (String × Card)) (cid : String) : Option Card :=
  (db.find? (fun kv => kv.1 == cid)).map (fun kv => kv.2)

/-- First unit with the given uid on a board.  The engine builds
`{u.uid: u for u in board}` dicts; uids on any engine-produced board are
unique (allocated from the monotone next_uid counter), so first match
models the dict lookup. -/
def boardFind (board : List UnitInstance) (uid : Nat) : Option UnitInstance :=
  board.find? (fun u => u.uid == uid)

/-- Insert into an association list with Python-dict semantics: overwrite
the value if the key exists (keeping its position), else append. -/
def dictInsert (m : List (Nat × Nat)) (k v : Nat) : List (Nat × Nat) :=
  if (m.lookup k).isSome then
    m.map (fun kv => if kv.1 = k then (kv.1, v) else kv)
  else m ++ [(k, v)]

/-- actions.py `_apply_declare_block` builds
`{attacker_uid: blocker_uid for blocker_uid, attacker_uid in pairs}`. -/
def dictOfPairs (pairs : List (Nat × Nat)) : List (Nat × Nat) :=
  pairs.foldl (fun m p => dictInsert m p.2 p.1) []

-- ---------------------------------------------------------------------
-- effects.py
-- ---------------------------------------------------------------------

/-- effects.py `_draw_one`: move the front card of the deck to the hand;
returns `false` (and leaves the state unchanged) if the deck is empty. -/
def draw_one (gs : GameState) (player_idx : Nat) : GameState × Bool :=
  let p := gs.player player_idx
  match p.deck with
  | [] => (gs, false)
  | c :: rest =>
      (gs.setPlayer player_idx { p with deck := rest, hand := p.hand ++ [c] }, true)

/-- effects.py `Draw` / `OnPlayDraw` body: draw n cards, ignoring failures. -/
def drawN (gs : GameState) (player_idx : Nat) : Nat → GameState
  | 0 => gs
  | n + 1 => drawN (draw_one gs player_idx).1 player_idx n

/-- effects.py `RemoveUnit` body: remove the first unit with hp at most
`max_hp` from the board, returning the new board and the removed card id. -/
def removeFirstLe (max_hp : Int) : List UnitInstance → List UnitInstance × Option String
  | [] => ([], none)
  | u :: rest =>
      if u.hp ≤ max_hp then (rest, some u.card_id)
      else
        let r := removeFirstLe max_hp rest
        (u :: r.1, r.2)

/-- effects.py `resolve_effect`: dispatch on the template name over the
closed registry; an unknown template raises ValueError (`none`), and a
missing required parameter raises KeyError (`none`). -/
def resolve_effect (gs : GameState) (player_idx : Nat) (template : String)
    (params : Params) : Option GameState :=
  if template = "Vanilla" then some gs
  else if template = "OnPlayDamagePlayer" ∨ template = "DamagePlayer" then
    match params.amount with
    | none => none
    | some amount =>
        some (gs.updatePlayer (1 - player_idx) (fun opp => { opp with hp := opp.hp - amount }))
  else if template = "OnPlayDraw" ∨ template = "Draw" then
    match params.n with
    | none => none
    | some n => some (drawN gs player_idx n)
  else if template = "HealSelf" then
    match params.amount with
    | none => none
    | some amount =>
        some (gs.updatePlayer player_idx (fun p => { p with hp := min (p.hp + amount) 20 }))
  else if template = "RemoveUnit" then
    match params.max_hp with
    | none => none
    | some max_hp =>
        some (gs.updatePlayer (1 - player_idx) (fun opp =>
          let r := removeFirstLe max_hp opp.board
          match r.2 with
          | none => opp
          | some cid => { opp with board := r.1, graveyard := opp.graveyard ++ [cid] }))
  else none

-- ---------------------------------------------------------------------
-- actions.py
-- ---------------------------------------------------------------------

/-- Action variants (actions.py frozen dataclasses).  DeclareAttack holds
the attacker uid tuple; DeclareBlock holds (blocker_uid, attacker_uid)
pairs. -/
inductive Action where
  | PlayCard (hand_index : Nat)
  | GoToCombat
  | DeclareAttack (attacker_uids : List Nat)
  | DeclareBlock (pairs : List (Nat × Nat))
  | EndTurn
deriving DecidableEq, Repr

/-- actions.py BOARD_LIMIT. -/
def BOARD_LIMIT : Nat := 7

/-- The PlayCard portion of `_get_main_actions`: the enumerate loop over
the hand, skipping unaffordable cards and units without board room.
`none` models the KeyError for a card id absent from the catalog. -/
def main_play_actions (db : List (String × Card)) (mana : Int) (blen : Nat) :
    List String → Nat → Option (List Action)
  | [], _ => some []
  | cid :: rest, i =>
      match cardLookup db cid with
      | none => none
      | some card =>
          match main_play_actions db mana blen rest (i + 1) with
          | none => none
          | some tail =>
              if mana < card.cost then some tail
              else if card.is_unit && decide (BOARD_LIMIT ≤ blen) then some tail
              else some (Action.PlayCard i :: tail)

/-- actions.py `_get_main_actions`. -/
def get_main_actions (gs : GameState) : Option (List Action) :=
  let p := gs.active
  match main_play_actions gs.card_db p.mana p.board.length p.hand 0 with
  | none => none
  | some plays =>
      some (plays
        ++ (if p.board.any (fun u => u.can_attack) then [Action.GoToCombat] else [])
        ++ [Action.EndTurn])

/-- Insertion into a list sorted by the boolean relation `le`; used to
model Python's stable `sorted`. -/
def orderedInsertB (le : α → α → Bool) (a : α) : List α → List α
  | [] => [a]
  | b :: l => if le a b then a :: b :: l else b :: orderedInsertB le a l

/-- Stable insertion sort by a boolean relation (models Python `sorted`,
which is stable; for a total preorder `le` both place earlier-listed
elements first among equals). -/
def sortB (le : α → α → Bool) : List α → List α
  | [] => []
  | a :: l => orderedInsertB le a (sortB le l)

/-- Ascending sort of uids: `tuple(sorted(uids))` in `_get_attack_candidates`. -/
def sortedKey (uids : List Nat) : List Nat := sortB (fun x y => decide (x ≤ y)) uids

/-- The `_add` helper of `_get_attack_candidates`: deduplicate by the
sorted uid tuple, appending the sorted tuple itself as the action. -/
def addAttack (acc : List (List Nat) × List Action) (uids : List Nat) :
    List (List Nat) × List Action :=
  let key := sortedKey uids
  if key ∈ acc.1 then acc else (acc.1 ++ [key], acc.2 ++ [Action.DeclareAttack key])

/-- Body of `_get_attack_candidates`, over the local `attackable` list of
eligible attacker uids: empty attack, all attackers, each single attacker,
and (when at least two are eligible) each all-minus-one combination,
deduplicated by sorted uid tuple. -/
def attack_candidates_core (attackable : List Nat) : List Action :=
  let acc := addAttack ([], []) []
  let acc :=
    if attackable.isEmpty then acc
    else
      let acc := addAttack acc attackable
      let acc := attackable.foldl (fun a u => addAttack a [u]) acc
      if 1 < attackable.length then
        attackable.foldl (fun a u => addAttack a (attackable.filter (fun v => v ≠ u))) acc
      else acc
  acc.2

/-- actions.py `_get_attack_candidates`. -/
def get_attack_candidates (gs : GameState) : List Action :=
  attack_candidates_core
    ((gs.active.board.filter (fun u => u.can_attack)).map (fun u => u.uid))

/-- Lexicographic order on (blocker, attacker) uid pairs: Python
`sorted(pairs)` compares tuples lexicographically. -/
def pairLeB (x y : Nat × Nat) : Bool :=
  decide (x.1 < y.1) || (decide (x.1 = y.1) && decide (x.2 ≤ y.2))

/-- The `_add` helper of `_get_block_candidates`: deduplicate by the
sorted pair tuple, appending the sorted tuple as the action. -/
def addBlock (acc : List (List (Nat × Nat)) × List Action) (pairs : List (Nat × Nat)) :
    List (List (Nat × Nat)) × List Action :=
  let key := sortB pairLeB pairs
  if key ∈ acc.1 then acc else (acc.1 ++ [key], acc.2 ++ [Action.DeclareBlock key])

/-- The heuristic block score of `_get_block_candidates` (+10 if the
blocker can kill the attacker, +5 if the blocker survives, +0.1 times the
blocker attack as tiebreak).  The Python floats are modelled as exact
rationals; every claim settled here is independent of the score values. -/
def blockScore (b a : UnitInstance) : ℚ :=
  (if a.hp ≤ b.atk then 10 else 0) + (if a.atk < b.hp then 5 else 0) + (b.atk : ℚ) * (1 / 10)

/-- The inner best-blocker scan of the greedy pass: walk the blocker list,
skipping used blockers, keeping the strictly best score (initial -999). -/
def bestBlocker (blockers : List UnitInstance) (used : List Nat) (a : UnitInstance) :
    Option UnitInstance × ℚ :=
  blockers.foldl
    (fun best b =>
      if b.uid ∈ used then best
      else
        let score := blockScore b a
        if best.2 < score then (some b, score) else best)
    (none, -999)

/-- One step of the greedy pass of `_get_block_candidates`: for the next
attacker uid (in descending-attack order), pick the best unused blocker
and keep the pair only when its score is strictly positive.  The state is
(pairs so far, used blocker uids). -/
def greedyStep (amap : Nat → Option UnitInstance) (blockers : List UnitInstance)
    (st : List (Nat × Nat) × List Nat) (a_uid : Nat) : List (Nat × Nat) × List Nat :=
  match amap a_uid with
  | none => st
  | some a_unit =>
      let best := bestBlocker blockers st.2 a_unit
      match best.1 with
      | none => st
      | some b => if 0 < best.2 then (st.1 ++ [(b.uid, a_uid)], st.2 ++ [b.uid]) else st

/-- One step of the max-cardinality pass of `_get_block_candidates`:
assign the first not-yet-used blocker to the next attacker. -/
def maxStep (blockers : List UnitInstance) (st : List (Nat × Nat) × List Nat)
    (a_uid : Nat) : List (Nat × Nat) × List Nat :=
  match blockers.find? (fun b => !(st.2.contains b.uid)) with
  | none => st
  | some b => (st.1 ++ [(b.uid, a_uid)], st.2 ++ [b.uid])

/-- The sort key of the greedy pass: the attack of the unit with that uid
on the active board, 0 when absent (`attacker_map[uid].atk if uid in
attacker_map else 0`). -/
def atkKey (aboard : List UnitInstance) (uid : Nat) : Int :=
  match boardFind aboard uid with
  | some u => u.atk
  | none => 0

/-- `sorted(attacker_uids, key=..., reverse=True)`: the declared attacker
uids, stably sorted by descending attack. -/
def sortedAttackers (aboard : List UnitInstance) (uids : List Nat) : List Nat :=
  sortB (fun x y => decide (atkKey aboard y ≤ atkKey aboard x)) uids

/-- The greedy pass of `_get_block_candidates` (pairs plus used set). -/
def greedyPairs (aboard blockers : List UnitInstance) (sorted_attackers : List Nat) :
    List (Nat × Nat) × List Nat :=
  sorted_attackers.foldl (greedyStep (fun uid => boardFind aboard uid) blockers) ([], [])

/-- Add the greedy assignment when it is nonempty. -/
def greedyAdd (aboard blockers : List UnitInstance) (sorted_attackers : List Nat)
    (acc : List (List (Nat × Nat)) × List Action) : List (List (Nat × Nat)) × List Action :=
  let greedy := greedyPairs aboard blockers sorted_attackers
  if greedy.1.isEmpty then acc else addBlock acc greedy.1

/-- The max-cardinality pass of `_get_block_candidates`. -/
def maxPairs (blockers : List UnitInstance) (attacker_uids : List Nat) :
    List (Nat × Nat) × List Nat :=
  attacker_uids.foldl (maxStep blockers) ([], [])

/-- Add the max-cardinality assignment when it is nonempty. -/
def maxAdd (blockers : List UnitInstance) (attacker_uids : List Nat)
    (acc : List (List (Nat × Nat)) × List Action) : List (List (Nat × Nat)) × List Action :=
  let maxp := maxPairs blockers attacker_uids
  if maxp.1.isEmpty then acc else addBlock acc maxp.1

/-- The single-block pass: each blocker alone blocks the strongest
attacker (the head of the descending-sorted attacker list). -/
def singlesAdd (blockers : List UnitInstance) (sorted_attackers : List Nat)
    (acc : List (List (Nat × Nat)) × List Action) : List (List (Nat × Nat)) × List Action :=
  match sorted_attackers with
  | [] => acc
  | strongest :: _ => blockers.foldl (fun a b => addBlock a [(b.uid, strongest)]) acc

/-- Body of `_get_block_candidates`, over the locals: the declared
attacker uids, the defender board (the blockers), and the active board
(for attacker lookups): no-block, greedy 1:1 assignment, max-cardinality
1:1 assignment, and one single-block of the strongest attacker per
blocker; deduplicated by sorted pair tuple. -/
def block_candidates_core (attacker_uids : List Nat) (blockers aboard : List UnitInstance) :
    List Action :=
  (if blockers.isEmpty || attacker_uids.isEmpty then addBlock ([], []) []
   else
     singlesAdd blockers (sortedAttackers aboard attacker_uids)
       (maxAdd blockers attacker_uids
         (greedyAdd aboard blockers (sortedAttackers aboard attacker_uids)
           (addBlock ([], []) [])))).2

/-- actions.py `_get_block_candidates`; `none` models the
`assert gs.combat is not None` failure. -/
def get_block_candidates (gs : GameState) : Option (List Action) :=
  match gs.combat with
  | none => none
  | some c => some (block_candidates_core c.attackers gs.opponent.board gs.active.board)

/-- actions.py `get_legal_actions`: dispatch on the phase; any phase other
than main / combat_attack / combat_block yields only EndTurn. -/
def get_legal_actions (gs : GameState) : Option (List Action) :=
  match gs.phase with
  | Phase.main => get_main_actions gs
  | Phase.combat_attack => some (get_attack_candidates gs)
  | Phase.combat_block => get_block_candidates gs
  | Phase.endp => some [Action.EndTurn]

/-- actions.py `_apply_play_card`: pop the card at the hand index, pay its
cost; for a unit allocate a fresh uid and append a summoning-sick
UnitInstance to the board, then resolve the effect; for a spell append the
id to the graveyard, then resolve the effect. -/
def apply_play_card (gs : GameState) (hand_index : Nat) : Option GameState :=
  let p := gs.active
  match p.hand.get? hand_index with
  | none => none
  | some card_id =>
      match cardLookup gs.card_db card_id with
      | none => none
      | some card =>
          let gs1 := gs.updatePlayer gs.active_player (fun q =>
            { q with hand := q.hand.eraseIdx hand_index, mana := q.mana - card.cost })
          if card.is_unit then
            let unit : UnitInstance :=
              { uid := gs1.next_uid, card_id := card_id,
                atk := card.params.atk.getD 0, hp := card.params.hp.getD 0,
                can_attack := false }
            let gs2 := { gs1.updatePlayer gs.active_player
                           (fun q => { q with board := q.board ++ [unit] }) with
                         next_uid := gs1.next_uid + 1 }
            resolve_effect gs2 gs.active_player card.template card.params
          else
            let gs2 := gs1.updatePlayer gs.active_player
              (fun q => { q with graveyard := q.graveyard ++ [card_id] })
            resolve_effect gs2 gs.active_player card.template card.params

/-- actions.py `_apply_declare_attack`: empty tuple cancels combat (back
to main); otherwise store the attackers and move to combat_block. -/
def apply_declare_attack (gs : GameState) (attacker_uids : List Nat) : Option GameState :=
  match gs.combat with
  | none => none
  | some c =>
      if attacker_uids.isEmpty then
        some { gs with combat := none, phase := Phase.main }
      else
        some { gs with combat := some { c with attackers := attacker_uids },
                       phase := Phase.combat_block }

/-- actions.py `_apply_declare_block`: store the blocks map built from the
(blocker, attacker) pairs. -/
def apply_declare_block (gs : GameState) (pairs : List (Nat × Nat)) : Option GameState :=
  match gs.combat with
  | none => none
  | some c => some { gs with combat := some { c with blocks := dictOfPairs pairs } }

/-- actions.py `apply_action`. -/
def apply_action (gs : GameState) (a : Action) : Option GameState :=
  match a with
  | Action.PlayCard idx => apply_play_card gs idx
  | Action.GoToCombat =>
      some { gs with phase := Phase.combat_attack, combat := some {} }
  | Action.DeclareAttack uids => apply_declare_attack gs uids
  | Action.DeclareBlock pairs => apply_declare_block gs pairs
  | Action.EndTurn => some gs

-- ---------------------------------------------------------------------
-- engine.py
-- ---------------------------------------------------------------------

/-- engine.py MAX_TURNS. -/
def MAX_TURNS : Nat := 50

/-- engine.py `_check_winner`. -/
def check_winner (gs : GameState) : Option GameResult :=
  let p0_dead := gs.players.1.hp ≤ 0
  let p1_dead := gs.players.2.hp ≤ 0
  if p0_dead ∧ p1_dead then some GameResult.DRAW
  else if p0_dead then some GameResult.PLAYER_1_WIN
  else if p1_dead then some GameResult.PLAYER_0_WIN
  else none

/-- engine.py `_start_turn`: bump the turn counter, reset phase and combat,
grow and refill mana, draw one card (an empty deck is an immediate loss for
the active player, skipping the wake-up step), else wake all units. -/
def start_turn (gs : GameState) : GameState × Option GameResult :=
  let gs1 := { gs with turn := gs.turn + 1, phase := Phase.main, combat := none }
  let gs2 := gs1.updatePlayer gs1.active_player (fun p =>
    let mm := min (p.mana_max + 1) 10
    { p with mana_max := mm, mana := mm })
  let dr := draw_one gs2 gs2.active_player
  if dr.2 then
    (dr.1.updatePlayer dr.1.active_player (fun p =>
      { p with board := p.board.map (fun u => { u with can_attack := true }) }), none)
  else
    (dr.1, some (if gs.active_player = 0 then GameResult.PLAYER_1_WIN
                 else GameResult.PLAYER_0_WIN))

/-- Buffered damage accumulator of `_resolve_combat` (the defaultdict of
per-uid unit damage, the damage to the defending player, and the observer
counters). -/
structure DmgAcc where
  unit_damage : List (Nat × Int) := []
  player_damage : Int := 0
  unblocked_atk_count : Nat := 0
  unblocked_dmg : Int := 0
  trade_count : Nat := 0
deriving DecidableEq, Repr

/-- Add buffered damage for a uid (`unit_damage[uid] += dmg` on the
defaultdict: insertion order kept, values accumulated). -/
def dmgAdd (m : List (Nat × Int)) (k : Nat) (v : Int) : List (Nat × Int) :=
  if (m.lookup k).isSome then
    m.map (fun kv => if kv.1 = k then (kv.1, kv.2 + v) else kv)
  else m ++ [(k, v)]

/-- One declared attacker in the damage-buffering pass of
`_resolve_combat`: a vanished attacker is skipped; a blocked attacker with
a live blocker trades mutual damage; otherwise the full attack goes to the
defending player.  The trade counter is computed from pre-combat stats
(the Python source computes it only when telemetry is attached, purely as
an optimization; the value is only ever reported to observers). -/
def combatDamageStep (aboard dboard : List UnitInstance) (blocks : List (Nat × Nat))
    (acc : DmgAcc) (a_uid : Nat) : DmgAcc :=
  match boardFind aboard a_uid with
  | none => acc
  | some attacker =>
      match blocks.lookup a_uid with
      | some b_uid =>
          match boardFind dboard b_uid with
          | some blocker =>
              { acc with
                unit_damage := dmgAdd (dmgAdd acc.unit_damage b_uid attacker.atk) a_uid blocker.atk,
                trade_count := acc.trade_count +
                  (if attacker.hp ≤ blocker.atk ∧ blocker.hp ≤ attacker.atk then 1 else 0) }
          | none =>
              { acc with player_damage := acc.player_damage + attacker.atk,
                         unblocked_atk_count := acc.unblocked_atk_count + 1,
                         unblocked_dmg := acc.unblocked_dmg + attacker.atk }
      | none =>
          { acc with player_damage := acc.player_damage + attacker.atk,
                     unblocked_atk_count := acc.unblocked_atk_count + 1,
                     unblocked_dmg := acc.unblocked_dmg + attacker.atk }

/-- Subtract dmg from the hp of the first unit carrying the uid. -/
def hitFirst : List UnitInstance → Nat → Int → List UnitInstance
  | [], _, _ => []
  | u :: rest, uid, dmg =>
      if u.uid = uid then { u with hp := u.hp - dmg } :: rest
      else u :: hitFirst rest uid dmg

/-- Apply one buffered unit-damage entry: the uid is looked up on the
active board first, then on the defender board
(`active_units.get(uid) or defender_units.get(uid)`). -/
def applyUnitDamage (boards : List UnitInstance × List UnitInstance) (kv : Nat × Int) :
    List UnitInstance × List UnitInstance :=
  if (boardFind boards.1 kv.1).isSome then (hitFirst boards.1 kv.1 kv.2, boards.2)
  else if (boardFind boards.2 kv.1).isSome then (boards.1, hitFirst boards.2 kv.1 kv.2)
  else boards

/-- The structured combat breakdown `_resolve_combat` reports to
telemetry and replay observers. -/
structure CombatStats where
  unblocked_atk_count : Nat
  unblocked_dmg : Int
  trade_count : Nat
  atk_deaths : Nat
  def_deaths : Nat
  player_damage : Int
deriving DecidableEq, Repr

/-- engine.py `_resolve_combat`: buffer all damage from pre-combat stats,
apply player damage once, apply per-unit damage once, remove dead units to
their owners' graveyards (active board first), mark surviving attackers as
unable to attack, and clear the combat state.  `none` models the
`assert gs.combat is not None` failure. -/
def resolve_combat (gs : GameState) : Option (GameState × CombatStats) :=
  match gs.combat with
  | none => none
  | some c =>
      let ai := gs.active_player
      let di := gs.opponent_idx
      let ap := gs.active
      let dp := gs.opponent
      let acc := c.attackers.foldl (combatDamageStep ap.board dp.board c.blocks) {}
      let dhp := dp.hp - acc.player_damage
      let boards := acc.unit_damage.foldl applyUnitDamage (ap.board, dp.board)
      let adead := boards.1.filter (fun u => u.hp ≤ 0)
      let aboard0 := boards.1.filter (fun u => 0 < u.hp)
      let ddead := boards.2.filter (fun u => u.hp ≤ 0)
      let dboard := boards.2.filter (fun u => 0 < u.hp)
      let aboard := aboard0.map (fun u =>
        if u.uid ∈ c.attackers then { u with can_attack := false } else u)
      let gs1 := gs.updatePlayer ai (fun p =>
        { p with board := aboard,
                 graveyard := p.graveyard ++ adead.map (fun u => u.card_id) })
      let gs2 := gs1.updatePlayer di (fun p =>
        { p with hp := dhp, board := dboard,
                 graveyard := p.graveyard ++ ddead.map (fun u => u.card_id) })
      some ({ gs2 with combat := none },
        { unblocked_atk_count := acc.unblocked_atk_count,
          unblocked_dmg := acc.unblocked_dmg,
          trade_count := acc.trade_count,
          atk_deaths := adead.length,
          def_deaths := ddead.length,
          player_damage := acc.player_damage })

-- ---------------------------------------------------------------------
-- engine.py run_game: observers and the turn loop
-- ---------------------------------------------------------------------

/-- replay.py `snapshot_player`. -/
structure PlayerSnapshot where
  hp : Int
  mana : Int
  mana_max : Int
  hand_count : Nat
  deck_count : Nat
  graveyard_count : Nat
  board : List UnitInstance
deriving DecidableEq, Repr

/-- Build a snapshot of one player. -/
def snapshot_player (p : PlayerState) : PlayerSnapshot :=
  { hp := p.hp, mana := p.mana, mana_max := p.mana_max, hand_count := p.hand.length,
    deck_count := p.deck.length, graveyard_count := p.graveyard.length, board := p.board }

/-- Observer events: one constructor per telemetry hook / replay record of
engine.py.  Observers only ever receive read-only data, so each hook call
is modelled as appending an event carrying that data. -/
inductive Event where
  | game_start (active_player : Nat) (p0 p1 : PlayerSnapshot)
  | turn_start (turn : Nat) (active_player : Nat) (p0 p1 : PlayerSnapshot)
  | cards_drawn (player : Nat) (n : Int) (reason : String)
  | card_played (player : Nat) (card : Card)
  | play_card (turn : Nat) (player : Nat) (card_id : String) (cost : Int)
      (card_type : String) (mana_after : Int) (hand_count_after : Nat)
  | spell_damage (player : Nat) (damage : Int)
  | go_to_combat (turn : Nat) (player : Nat)
  | declare_attack (turn : Nat) (player : Nat) (attacker_uids : List Nat)
      (attackers : List UnitInstance)
  | declare_block (turn : Nat) (player : Nat) (pairs : List (Nat × String × Nat × String))
  | combat_resolve (turn : Nat) (atk_idx def_idx : Nat) (stats : CombatStats)
      (hp_after_p0 hp_after_p1 : Int)
  | turn_end (turn : Nat) (player : Nat)
  | game_end (winner : GameResult) (reason : String) (turns : Nat) (final_hp : Int × Int)
deriving DecidableEq, Repr

/-- One `_record_trace` entry (`str(action)` is modelled by the action). -/
structure TraceEntry where
  turn : Nat
  player : Nat
  action : Action
deriving DecidableEq, Repr

/-- The three observer streams of one run: telemetry hook calls, replay
records, and the action trace. -/
structure Logs where
  tel : List Event := []
  rep : List Event := []
  tr : List TraceEntry := []
deriving DecidableEq, Repr

/-- Concatenate observer streams. -/
def Logs.app (a b : Logs) : Logs := ⟨a.tel ++ b.tel, a.rep ++ b.rep, a.tr ++ b.tr⟩

/-- The two agents of a match (`agents: tuple[Agent, Agent]`); an agent is
a pure decision function from the game state and the legal-action list. -/
structure Agents where
  choose0 : GameState → List Action → Action
  choose1 : GameState → List Action → Action

/-- `agents[i]` for i in {0, 1}. -/
def Agents.pick (ag : Agents) (i : Nat) : GameState → List Action → Action :=
  if i = 0 then ag.choose0 else ag.choose1

/-- Start-of-turn portion of the run_game loop body (engine.py lines
279-300): run `_start_turn`, notify observers of the turn start, and on a
successful draw notify telemetry of the turn draw.  Returns the new state,
the deck-out result if any, and the emitted events. -/
def startTurnStep (tel rep : Bool) (gs : GameState) : GameState × Option GameResult × Logs :=
  let st := start_turn gs
  let gs1 := st.1
  let ev := Event.turn_start gs1.turn gs1.active_player
    (snapshot_player gs1.players.1) (snapshot_player gs1.players.2)
  let telL := if tel then [ev] else []
  let repL := if rep then [ev] else []
  match st.2 with
  | some r => (gs1, some r, ⟨telL, repL, []⟩)
  | none =>
      let telL := telL ++ (if tel then [Event.cards_drawn gs1.active_player 1 "turn_draw"] else [])
      (gs1, none, ⟨telL, repL, []⟩)

/-- Observer events for one applied PlayCard (engine.py lines 312-350):
the replay play_card record and the telemetry card-played / effect-draw /
spell-damage notifications, all computed by reading the states before and
after the action.  The inner `none` cases are unreachable whenever
`apply_action` succeeded on the same action. -/
def playCardLogs (tel rep : Bool) (gs gs1 : GameState) (idx : Nat) : Logs :=
  match gs.active.hand.get? idx with
  | none => ⟨[], [], []⟩
  | some cid =>
      match cardLookup gs.card_db cid with
      | none => ⟨[], [], []⟩
      | some card =>
          let repL := if rep then
              [Event.play_card gs1.turn gs1.active_player card.id card.cost card.card_type
                gs1.active.mana gs1.active.hand.length]
            else []
          let draws : Int := (gs1.active.hand.length : Int) - (gs.active.hand.length : Int) + 1
          let damage := gs.opponent.hp - gs1.opponent.hp
          let telL := if tel then
              [Event.card_played gs1.active_player card]
              ++ (if 0 < draws then [Event.cards_drawn gs1.active_player draws "effect"] else [])
              ++ (if 0 < damage then [Event.spell_damage gs1.active_player damage] else [])
            else []
          ⟨telL, repL, []⟩

/-- The main-phase loop of run_game (engine.py lines 302-366): ask the
active agent for an action, record the trace, end the phase on EndTurn,
otherwise apply the action, notify observers, and continue until the phase
changes or a winner is found.  Fuel bounds the iteration count; `none`
models a crash or fuel exhaustion. -/
def mainLoop (tel rep tr : Bool) (ag : Agents) : Nat → GameState → Option (GameState × Logs)
  | 0, _ => none
  | fuel + 1, gs =>
      if gs.phase = Phase.main ∧ gs.result = none then
        match get_legal_actions gs with
        | none => none
        | some legal =>
            let action := ag.pick gs.active_player gs legal
            let trL : List TraceEntry :=
              if tr then [⟨gs.turn, gs.active_player, action⟩] else []
            if action = Action.EndTurn then
              some ({ gs with phase := Phase.endp }, ⟨[], [], trL⟩)
            else
              match apply_action gs action with
              | none => none
              | some gs1 =>
                  let logs1 : Logs :=
                    match action with
                    | Action.PlayCard idx => Logs.app ⟨[], [], trL⟩ (playCardLogs tel rep gs gs1 idx)
                    | Action.GoToCombat =>
                        ⟨[], if rep then [Event.go_to_combat gs1.turn gs1.active_player] else [], trL⟩
                    | _ => ⟨[], [], trL⟩
                  if gs1.phase ≠ Phase.main then some (gs1, logs1)
                  else
                    match check_winner gs1 with
                    | some r => some ({ gs1 with result := some r }, logs1)
                    | none =>
                        match mainLoop tel rep tr ag fuel gs1 with
                        | none => none
                        | some res => some (res.1, Logs.app logs1 res.2)
      else some (gs, ⟨[], [], []⟩)

/-- The combat_attack step of run_game (engine.py lines 368-395): the
active agent picks one action, it is applied, and observers are notified
of a DeclareAttack. -/
def attackPhase (tel rep tr : Bool) (ag : Agents) (gs : GameState) : Option (GameState × Logs) :=
  if gs.phase = Phase.combat_attack ∧ gs.result = none then
    match get_legal_actions gs with
    | none => none
    | some legal =>
        let action := ag.pick gs.active_player gs legal
        let trL : List TraceEntry := if tr then [⟨gs.turn, gs.active_player, action⟩] else []
        match apply_action gs action with
        | none => none
        | some gs1 =>
            match action with
            | Action.DeclareAttack uids =>
                let ev := Event.declare_attack gs1.turn gs1.active_player uids
                  (uids.filterMap (fun u => boardFind gs1.active.board u))
                some (gs1, ⟨if tel then [ev] else [], if rep then [ev] else [], trL⟩)
            | _ => some (gs1, ⟨[], [], trL⟩)
  else some (gs, ⟨[], [], []⟩)

/-- The combat_block step of run_game (engine.py lines 397-434): the
defender picks one action, it is applied, observers are notified, combat
is resolved (with its own observer records), a winner check runs, and the
phase moves to end. -/
def blockPhase (tel rep tr : Bool) (ag : Agents) (gs : GameState) : Option (GameState × Logs) :=
  if gs.phase = Phase.combat_block ∧ gs.result = none then
    match get_legal_actions gs with
    | none => none
    | some legal =>
        let defender_idx := gs.opponent_idx
        let action := ag.pick defender_idx gs legal
        let trL : List TraceEntry := if tr then [⟨gs.turn, defender_idx, action⟩] else []
        match apply_action gs action with
        | none => none
        | some gs1 =>
            let actLogs : Logs :=
              match action with
              | Action.DeclareBlock pairs =>
                  let detail := pairs.map (fun bp =>
                    (bp.1,
                     (((boardFind (gs1.player defender_idx).board bp.1).map
                        (fun u => u.card_id)).getD "?"),
                     bp.2,
                     (((boardFind gs1.active.board bp.2).map (fun u => u.card_id)).getD "?")))
                  let ev := Event.declare_block gs1.turn defender_idx detail
                  ⟨if tel then [ev] else [], if rep then [ev] else [], trL⟩
              | _ => ⟨[], [], trL⟩
            match resolve_combat gs1 with
            | none => none
            | some rc =>
                let gs2 := rc.1
                let ev := Event.combat_resolve gs2.turn gs2.active_player gs2.opponent_idx rc.2
                  gs2.players.1.hp gs2.players.2.hp
                let combatLogs : Logs := ⟨if tel then [ev] else [], if rep then [ev] else [], []⟩
                let gs3 := match check_winner gs2 with
                  | some r => { gs2 with result := some r }
                  | none => gs2
                some ({ gs3 with phase := Phase.endp }, Logs.app actLogs combatLogs)
  else some (gs, ⟨[], [], []⟩)

/-- The end-of-turn step of run_game (engine.py lines 436-449): in phase
end (or main, when combat was cancelled) notify observers of the turn end
and hand the seat to the other player. -/
def endPhase (tel rep : Bool) (gs : GameState) : GameState × Logs :=
  if gs.phase = Phase.endp ∨ gs.phase = Phase.main then
    let ev := Event.turn_end gs.turn gs.active_player
    ({ gs with active_player := 1 - gs.active_player },
     ⟨if tel then [ev] else [], if rep then [ev] else [], []⟩)
  else (gs, ⟨[], [], []⟩)

/-- The while-loop of run_game (engine.py lines 267-449): stop once a
result is set; at the turn limit decide by HP comparison; otherwise play
one full turn (upkeep, main phase, combat, end) and loop.  `fuel` bounds
the number of turns, `ifuel` the number of main-phase actions per turn. -/
def gameLoop (tel rep tr : Bool) (ag : Agents) (ifuel : Nat) :
    Nat → GameState → Option (GameState × Logs)
  | 0, _ => none
  | fuel + 1, gs =>
      match gs.result with
      | some _ => some (gs, ⟨[], [], []⟩)
      | none =>
          if MAX_TURNS ≤ gs.turn then
            let hp0 := gs.players.1.hp
            let hp1 := gs.players.2.hp
            let r := if hp1 < hp0 then GameResult.PLAYER_0_WIN
                     else if hp0 < hp1 then GameResult.PLAYER_1_WIN
                     else GameResult.DRAW
            some ({ gs with result := some r }, ⟨[], [], []⟩)
          else
            let st := startTurnStep tel rep gs
            match st.2.1 with
            | some r => some ({ st.1 with result := some r }, st.2.2)
            | none =>
                match mainLoop tel rep tr ag ifuel st.1 with
                | none => none
                | some m1 =>
                    match attackPhase tel rep tr ag m1.1 with
                    | none => none
                    | some m2 =>
                        match blockPhase tel rep tr ag m2.1 with
                        | none => none
                        | some m3 =>
                            let e := endPhase tel rep m3.1
                            match gameLoop tel rep tr ag ifuel fuel e.1 with
                            | none => none
                            | some res =>
                                some (res.1, Logs.app st.2.2 (Logs.app m1.2 (Logs.app m2.2
                                  (Logs.app m3.2 (Logs.app e.2 res.2)))))

/-- Match log (models.py); `winner` stores `gs.result` as the source does. -/
structure MatchLog where
  seed : Nat
  deck_ids : String × String
  winner : Option GameResult
  turns : Nat
  final_hp : Int × Int
  play_trace : Option (List TraceEntry) := none
deriving DecidableEq, Repr

/-- A finished run: the match log plus both observer streams. -/
structure RunResult where
  log : MatchLog
  telLog : List Event
  repLog : List Event
deriving DecidableEq, Repr

/-- The game-end reason tag of engine.py lines 452-460 (only ever shown to
observers). -/
def endReason (gs : GameState) : String :=
  let reason := if MAX_TURNS ≤ gs.turn then "turn_limit" else "normal"
  if reason = "normal" ∧ gs.result ≠ some GameResult.DRAW then
    let loser_idx := if gs.result = some GameResult.PLAYER_1_WIN then 0 else 1
    let loser := gs.player loser_idx
    if 0 < loser.hp ∧ loser.deck.isEmpty then "deckout" else reason
  else reason

/-- engine.py `run_game`: notify observers of the game start, run the turn
loop, notify observers of the game end, and package the MatchLog. -/
def run_game (tel rep tr : Bool) (ag : Agents) (ifuel fuel : Nat) (gs : GameState) :
    Option RunResult :=
  let ev := Event.game_start gs.active_player
    (snapshot_player gs.players.1) (snapshot_player gs.players.2)
  let startLogs : Logs := ⟨if tel then [ev] else [], if rep then [ev] else [], []⟩
  match gameLoop tel rep tr ag ifuel fuel gs with
  | none => none
  | some res =>
      let final := res.1
      let reason := endReason final
      let endEv := match final.result with
        | some r => [Event.game_end r reason final.turn (final.players.1.hp, final.players.2.hp)]
        | none => []
      let endLogs : Logs := ⟨if tel then endEv else [], if rep then endEv else [], []⟩
      let logs := Logs.app startLogs (Logs.app res.2 endLogs)
      some {
        log := { seed := 0, deck_ids := ("", ""), winner := final.result, turns := final.turn,
                 final_hp := (final.players.1.hp, final.players.2.hp),
                 play_trace := if tr then some logs.tr else none },
        telLog := logs.tel, repLog := logs.rep }

-- ---------------------------------------------------------------------
-- engine.py init_game
-- ---------------------------------------------------------------------

/-- A deterministic pseudo-random generator implementation, modelling the
`random.Random(seed)` instance: an abstract state (a Nat, the initial
state being the seed) threaded through the two operations init_game uses.
`randint lo hi` must return a value in [lo, hi], as Python guarantees. -/
structure RngImpl where
  shuffle : List String → Nat → List String × Nat
  randint : Nat → Nat → Nat → Nat × Nat
  randint_le : ∀ lo hi s, lo ≤ hi → lo ≤ (randint lo hi s).1 ∧ (randint lo hi s).1 ≤ hi

/-- engine.py `_build_deck_list`. -/
def build_deck_list (d : DeckDef) : List String :=
  d.entries.foldl (fun acc e => acc ++ List.replicate e.count e.card_id) []

/-- engine.py `init_game`: seed the RNG, build and shuffle both decks,
create the players, pick the first seat uniformly from the RNG, and draw
the two initial hands of 5 (player 0 first). -/
def init_game (impl : RngImpl) (card_db : List (String × Card)) (deck_a deck_b : DeckDef)
    (seed : Nat) : GameState :=
  let sa := impl.shuffle (build_deck_list deck_a) seed
  let sb := impl.shuffle (build_deck_list deck_b) sa.2
  let gs : GameState :=
    { turn := 0, active_player := 0, players := ({ deck := sa.1 }, { deck := sb.1 }),
      next_uid := 1, result := none, rng := sb.2, card_db := card_db,
      phase := Phase.main, combat := none }
  let ri := impl.randint 0 1 gs.rng
  let gs := { gs with active_player := ri.1, rng := ri.2 }
  let gs := (List.range 5).foldl (fun g _ => (draw_one g 0).1) gs
  (List.range 5).foldl (fun g _ => (draw_one g 1).1) gs

/-- Concrete instance of C2: uids 7 and 9, attacker card atk_card, blocker
card blk_card. -/
def gsC2W : GameState :=
  { turn := 3, active_player := 0,
    players := ({ board := [⟨7, "atk_card", 3, 2, true⟩], graveyard := ["x"] },
                { board := [⟨9, "blk_card", 2, 2, false⟩] }),
    next_uid := 10, result := none, rng := 0, card_db := [],
    phase := Phase.combat_block, combat := some ⟨[7], [(7, 9)]⟩ }

/-- A 50-turn state with HP 15 versus 12 for the C3 witness. -/
def gsC3W : GameState :=
  { turn := 50, active_player := 0,
    players := ({ hp := 15 }, { hp := 12 }),
    next_uid := 1, result := none, rng := 0, card_db := [], phase := Phase.main }

/-- Agents that always end the turn (used by concrete witnesses). -/
def agEnd : Agents :=
  { choose0 := fun _ _ => Action.EndTurn, choose1 := fun _ _ => Action.EndTurn }

/-- A state whose active player has an empty deck for the C4 witness. -/
def gsC4W : GameState :=
  { turn := 4, active_player := 1,
    players := ({ hp := 9, deck := ["soldier"], board := [⟨3, "s", 2, 2, false⟩] },
                { hp := 13, deck := [], hand := ["bolt"], board := [⟨4, "t", 1, 1, false⟩] }),
    next_uid := 5, result := none, rng := 0, card_db := [], phase := Phase.endp }

/-- A vanilla 2/2 unit card used by concrete witnesses. -/
def soldierW : Card :=
  { id := "soldier", name := "Soldier", cost := 2, card_type := "unit",
    template := "Vanilla", params := { atk := some 2, hp := some 2 } }

/-- A direct-damage spell card used by concrete witnesses. -/
def boltW : Card :=
  { id := "bolt", name := "Bolt", cost := 1, card_type := "spell",
    template := "DamagePlayer", params := { amount := some 3 } }

/-- A main-phase state with two cards in hand for the C8 witness. -/
def gsC8W : GameState :=
  { turn := 1, active_player := 0,
    players := ({ mana := 5, mana_max := 5, hand := ["bolt", "soldier"] }, {}),
    next_uid := 4, result := none, rng := 0,
    card_db := [("soldier", soldierW), ("bolt", boltW)], phase := Phase.main }

-- ---------------------------------------------------------------------
-- C7: unblocked attacker damage
-- ---------------------------------------------------------------------

/-- Damage one declared attacker contributes to the defending player,
per the specification wording: its full attack when it is still on the
active board and has no assigned blocker (or the assigned blocker is no
longer on the defender board); zero when it is gone or blocked. -/
def specAttackerPlayerDamage (aboard dboard : List UnitInstance)
    (blocks : List (Nat × Nat)) (a : Nat) : Int :=
  match boardFind aboard a with
  | none => 0
  | some att =>
      match blocks.lookup a with
      | some b => if (boardFind dboard b).isSome then 0 else att.atk
      | none => att.atk

/-- The total player damage the specification predicts for a combat. -/
def specUnblockedDamage (gs : GameState) (c : CombatState) : Int :=
  (c.attackers.map
    (specAttackerPlayerDamage gs.active.board gs.opponent.board c.blocks)).sum

/-- A combat state with a single unblocked attacker of attack 3 for the
C7 witness. -/
def gsC7W : GameState :=
  { turn := 2, active_player := 0,
    players := ({ board := [⟨1, "a", 3, 2, true⟩] }, { hp := 20 }),
    next_uid := 9, result := none, rng := 0, card_db := [],
    phase := Phase.combat_block, combat := some ⟨[1], []⟩ }

-- ---------------------------------------------------------------------
-- C5: main-phase legal actions
-- ---------------------------------------------------------------------

/-- Look up every card of a hand in the catalog (`none` if any is
missing, as the source would raise KeyError). -/
def lookupAll (db : List (String × Card)) : List String → Option (List Card)
  | [] => some []
  | cid :: rest =>
      match cardLookup db cid with
      | none => none
      | some c =>
          match lookupAll db rest with
          | none => none
          | some cs => some (c :: cs)

/-- The PlayCard actions the specification describes for the main phase:
one per hand card, in hand order, whose cost is at most the player's mana
and that is either a spell or a unit with board room. -/
def specPlayCards (mana : Int) (blen : Nat) (cards : List Card) : List Action :=
  ((cards.enum.filter (fun ic =>
      decide (ic.2.cost ≤ mana) &&
      (ic.2.card_type == "spell"
        || (ic.2.card_type == "unit" && decide (blen < BOARD_LIMIT))))).map
    (fun ic => Action.PlayCard ic.1))

/-- The full main-phase action list the specification describes: the
affordable PlayCards in hand order, then GoToCombat exactly when some
board unit can attack, then EndTurn last. -/
def specMainActions (gs : GameState) (cards : List Card) : List Action :=
  specPlayCards gs.active.mana gs.active.board.length cards
    ++ (if ∃ u ∈ gs.active.board, u.can_attack = true then [Action.GoToCombat] else [])
    ++ [Action.EndTurn]

-- ---------------------------------------------------------------------
-- C6: bounded attack-candidate generation
-- ---------------------------------------------------------------------

/-- The eligible attackers of the combat_attack phase (units with
can_attack = true, in board order). -/
def eligibleAttackers (gs : GameState) : List Nat :=
  (gs.active.board.filter (fun u => u.can_attack)).map (fun u => u.uid)

/-- The candidate pools the specification lists for DeclareAttack: the
empty attack, the attack with every eligible unit, each single-unit
attack, and (when at least two are eligible) each all-but-one
combination. -/
def attackProposals (attackable : List Nat) : List (List Nat) :=
  [[]] ++ (if attackable.isEmpty then [] else
    [attackable] ++ attackable.map (fun u => [u])
      ++ (if 1 < attackable.length then
            attackable.map (fun u => attackable.filter (fun v => v ≠ u))
          else []))

/-- Deduplicate proposals by sorted attacker-uid tuple, keeping first-seen
order, and emit the DeclareAttack actions (the spec reading of `_add`). -/
def dedupAttack (l : List (List Nat)) : List Action :=
  (l.foldl addAttack ([], [])).2

/-- A combat_attack state with two eligible attackers (uids 1 and 2) on
which the candidate set is the full power set of the eligible attackers. -/
def gsC6W : GameState :=
  { turn := 1, active_player := 0,
    players := ({ board := [⟨1, "a", 1, 1, true⟩, ⟨2, "b", 1, 1, true⟩] }, {}),
    next_uid := 3, result := none, rng := 0, card_db := [],
    phase := Phase.combat_attack, combat := some ⟨[], []⟩ }

/-- The property C9 asserts of every candidate action list: each
DeclareBlock in it pairs no blocker twice and no attacker twice. -/
def OneToOne (acts : List Action) : Prop :=
  ∀ pairs, Action.DeclareBlock pairs ∈ acts →
    (pairs.map Prod.fst).Nodup ∧ (pairs.map Prod.snd).Nodup

/-- Shared shape of the greedy and max-cardinality assignment steps: the
state is unchanged, or one pair (fresh blocker uid, current attacker uid)
is appended and the blocker uid is marked used. -/
def PairStepOk (f : (List (Nat × Nat) × List Nat) → Nat → List (Nat × Nat) × List Nat) :
    Prop :=
  ∀ st a, f st a = st ∨ ∃ b, b ∉ st.2 ∧ f st a = (st.1 ++ [(b, a)], st.2 ++ [b])

/-- A combat_block state with two attackers and no defending blockers for
the C9 witness. -/
def gsC9W : GameState :=
  { turn := 2, active_player := 0,
    players := ({ board := [⟨1, "a", 3, 3, true⟩, ⟨2, "b", 1, 1, true⟩] },
                { board := [] }),
    next_uid := 9, result := none, rng := 0, card_db := [],
    phase := Phase.combat_block, combat := some ⟨[1, 2], []⟩ }

-- ---------------------------------------------------------------------
-- C10: mana non-negativity and the 7-unit board bound along legal play
-- ---------------------------------------------------------------------

/-- The per-player invariant of C10 (mana_max non-negativity is the
auxiliary fact that makes the mana-refill case go through). -/
def PlayerInv (p : PlayerState) : Prop :=
  0 ≤ p.mana ∧ 0 ≤ p.mana_max ∧ p.board.length ≤ BOARD_LIMIT

/-- The state invariant of C10. -/
def Inv (gs : GameState) : Prop := PlayerInv gs.players.1 ∧ PlayerInv gs.players.2

/-- One step of the engine on its game state, as run_game performs them:
applying an action taken from the legal-action list, start-of-turn upkeep,
combat resolution, and the driver-level phase / result / seat writes. -/
inductive EngineStep : GameState → GameState → Prop where
  | legal (gs gs2 : GameState) (a : Action) (l : List Action)
      (hl : get_legal_actions gs = some l) (ha : a ∈ l)
      (happ : apply_action gs a = some gs2) : EngineStep gs gs2
  | upkeep (gs : GameState) : EngineStep gs (start_turn gs).1
  | combat (gs gs2 : GameState) (st : CombatStats)
      (h : resolve_combat gs = some (gs2, st)) : EngineStep gs gs2
  | set_phase (gs : GameState) (ph : Phase) : EngineStep gs { gs with phase := ph }
  | set_result (gs : GameState) (r : Option GameResult) :
      EngineStep gs { gs with result := r }
  | seat_swap (gs : GameState) :
      EngineStep gs { gs with active_player := 1 - gs.active_player }

/-- The trivial rng implementation used by concrete witnesses: identity
shuffle and the lower bound for randint. -/
def implW : RngImpl :=
  { shuffle := fun l s => (l, s), randint := fun lo _ s => (lo, s),
    randint_le := by
      intro lo hi s h
      exact ⟨Nat.le_refl lo, h⟩ }

/-- A two-copy deck for concrete witnesses. -/
def deckW : DeckDef := { deck_id := "d", entries := [⟨"soldier", 2⟩] }

-- ---------------------------------------------------------------------
-- C1: determinism and observer independence
-- ---------------------------------------------------------------------

/-- The game-state component of the main-phase loop with all observer
output erased; `mainLoop_fst` below proves that under every flag setting
`mainLoop` computes exactly this state. -/
def mainLoopS (ag : Agents) : Nat → GameState → Option GameState
  | 0, _ => none
  | fuel + 1, gs =>
      if gs.phase = Phase.main ∧ gs.result = none then
        match get_legal_actions gs with
        | none => none
        | some legal =>
            let action := ag.pick gs.active_player gs legal
            if action = Action.EndTurn then
              some { gs with phase := Phase.endp }
            else
              match apply_action gs action with
              | none => none
              | some gs1 =>
                  if gs1.phase ≠ Phase.main then some gs1
                  else
                    match check_winner gs1 with
                    | some r => some { gs1 with result := some r }
                    | none => mainLoopS ag fuel gs1
      else some gs

/-- The game-state component of the combat_attack step with observer
output erased. -/
def attackPhaseS (ag : Agents) (gs : GameState) : Option GameState :=
  if gs.phase = Phase.combat_attack ∧ gs.result = none then
    match get_legal_actions gs with
    | none => none
    | some legal => apply_action gs (ag.pick gs.active_player gs legal)
  else some gs

/-- The game-state component of the combat_block step with observer
output erased. -/
def blockPhaseS (ag : Agents) (gs : GameState) : Option GameState :=
  if gs.phase = Phase.combat_block ∧ gs.result = none then
    match get_legal_actions gs with
    | none => none
    | some legal =>
        match apply_action gs (ag.pick gs.opponent_idx gs legal) with
        | none => none
        | some gs1 =>
            match resolve_combat gs1 with
            | none => none
            | some rc =>
                let gs3 := match check_winner rc.1 with
                  | some r => { rc.1 with result := some r }
                  | none => rc.1
                some { gs3 with phase := Phase.endp }
  else some gs

/-- The game-state component of the end-of-turn step. -/
def endPhaseS (gs : GameState) : GameState :=
  if gs.phase = Phase.endp ∨ gs.phase = Phase.main then
    { gs with active_player := 1 - gs.active_player }
  else gs

/-- The game-state component of the whole turn loop with observer output
erased; `gameLoop_fst` below proves that under every flag setting
`gameLoop` computes exactly this state. -/
def gameLoopS (ag : Agents) (ifuel : Nat) : Nat → GameState → Option GameState
  | 0, _ => none
  | fuel + 1, gs =>
      match gs.result with
      | some _ => some gs
      | none =>
          if MAX_TURNS ≤ gs.turn then
            some { gs with result := some (
              if gs.players.2.hp < gs.players.1.hp then GameResult.PLAYER_0_WIN
              else if gs.players.1.hp < gs.players.2.hp then GameResult.PLAYER_1_WIN
              else GameResult.DRAW) }
          else
            let st := start_turn gs
            match st.2 with
            | some r => some { st.1 with result := some r }
            | none =>
                match mainLoopS ag ifuel st.1 with
                | none => none
                | some m1 =>
                    match attackPhaseS ag m1 with
                    | none => none
                    | some m2 =>
                        match blockPhaseS ag m2 with
                        | none => none
                        | some m3 => gameLoopS ag ifuel fuel (endPhaseS m3)

/-- The (winner, turns, final HP) outcome read off a final game state. -/
def stateOutcome (gs : GameState) : Option GameResult × Nat × (Int × Int) :=
  (gs.result, gs.turn, (gs.players.1.hp, gs.players.2.hp))

/-- The (winner, turns, final HP) outcome of a finished run. -/
def outcomeOf (r : RunResult) : Option GameResult × Nat × (Int × Int) :=
  (r.log.winner, r.log.turns, r.log.final_hp)

-- ---------------------------------------------------------------------
-- Theorems
-- ---------------------------------------------------------------------

-- ---------------------------------------------------------------------
-- Basic lemmas about state accessors
-- ---------------------------------------------------------------------

@[simp] theorem setPlayer_turn (gs : GameState) (i : Nat) (p : PlayerState) :
    (gs.setPlayer i p).turn = gs.turn := by
  unfold GameState.setPlayer; split <;> rfl

@[simp] theorem setPlayer_active_player (gs : GameState) (i : Nat) (p : PlayerState) :
    (gs.setPlayer i p).active_player = gs.active_player := by
  unfold GameState.setPlayer; split <;> rfl

@[simp] theorem setPlayer_next_uid (gs : GameState) (i : Nat) (p : PlayerState) :
    (gs.setPlayer i p).next_uid = gs.next_uid := by
  unfold GameState.setPlayer; split <;> rfl

@[simp] theorem setPlayer_result (gs : GameState) (i : Nat) (p : PlayerState) :
    (gs.setPlayer i p).result = gs.result := by
  unfold GameState.setPlayer; split <;> rfl

@[simp] theorem setPlayer_rng (gs : GameState) (i : Nat) (p : PlayerState) :
    (gs.setPlayer i p).rng = gs.rng := by
  unfold GameState.setPlayer; split <;> rfl

@[simp] theorem setPlayer_card_db (gs : GameState) (i : Nat) (p : PlayerState) :
    (gs.setPlayer i p).card_db = gs.card_db := by
  unfold GameState.setPlayer; split <;> rfl

@[simp] theorem setPlayer_phase (gs : GameState) (i : Nat) (p : PlayerState) :
    (gs.setPlayer i p).phase = gs.phase := by
  unfold GameState.setPlayer; split <;> rfl

@[simp] theorem setPlayer_combat (gs : GameState) (i : Nat) (p : PlayerState) :
    (gs.setPlayer i p).combat = gs.combat := by
  unfold GameState.setPlayer; split <;> rfl

@[simp] theorem player_setPlayer_self (gs : GameState) (i : Nat) (p : PlayerState) :
    (gs.setPlayer i p).player i = p := by
  unfold GameState.setPlayer GameState.player
  by_cases h : i = 0 <;> simp [h]

theorem player_setPlayer_other (gs : GameState) (i j : Nat) (p : PlayerState)
    (h : (i = 0) ≠ (j = 0)) : (gs.setPlayer i p).player j = gs.player j := by
  unfold GameState.setPlayer GameState.player
  by_cases hi : i = 0 <;> by_cases hj : j = 0 <;> simp_all

@[simp] theorem player_one_setPlayer_zero (gs : GameState) (p : PlayerState) :
    (gs.setPlayer 0 p).player 1 = gs.player 1 :=
  player_setPlayer_other gs 0 1 p (by simp)

@[simp] theorem player_zero_setPlayer_one (gs : GameState) (p : PlayerState) :
    (gs.setPlayer 1 p).player 0 = gs.player 0 :=
  player_setPlayer_other gs 1 0 p (by simp)

@[simp] theorem player_zero (gs : GameState) : gs.player 0 = gs.players.1 := by
  simp [GameState.player]

@[simp] theorem player_one (gs : GameState) : gs.player 1 = gs.players.2 := by
  simp [GameState.player]

@[simp] theorem players_fst_setPlayer_zero (gs : GameState) (p : PlayerState) :
    (gs.setPlayer 0 p).players.1 = p := by
  simp [GameState.setPlayer]

@[simp] theorem players_snd_setPlayer_zero (gs : GameState) (p : PlayerState) :
    (gs.setPlayer 0 p).players.2 = gs.players.2 := by
  simp [GameState.setPlayer]

@[simp] theorem players_fst_setPlayer_one (gs : GameState) (p : PlayerState) :
    (gs.setPlayer 1 p).players.1 = gs.players.1 := by
  simp [GameState.setPlayer]

@[simp] theorem players_snd_setPlayer_one (gs : GameState) (p : PlayerState) :
    (gs.setPlayer 1 p).players.2 = p := by
  simp [GameState.setPlayer]

theorem player_of_ne (gs : GameState) (i : Nat) (h : ¬ i = 0) :
    gs.player i = gs.players.2 := by
  simp [GameState.player, h]

theorem setPlayer_of_ne (gs : GameState) (i : Nat) (p : PlayerState) (h : ¬ i = 0) :
    gs.setPlayer i p = { gs with players := (gs.players.1, p) } := by
  simp [GameState.setPlayer, h]

-- ---------------------------------------------------------------------
-- Theorems
-- ---------------------------------------------------------------------

/-- C2: combat resolution buffers all damage from pre-combat stats and
only then applies it: an attacker of attack 3 / hp 2 blocked by a defender
of attack 2 / hp 2 leaves both units dead — both are removed from their
boards, each owner's graveyard receives the unit's card id (the telemetry
trade counter registers the mutual kill), and no damage reaches the
defending player.  Sequential resolution would instead kill the blocker
first and leave the attacker alive. -/
theorem C2_resolve_combat_simultaneous (gs : GameState) (ua ub : Nat) (cidA cidB : String)
    (ca cb : Bool) (hne : ua ≠ ub)
    (hap : gs.active_player = 0)
    (hcb : gs.combat = some ⟨[ua], [(ua, ub)]⟩)
    (hb0 : gs.players.1.board = [⟨ua, cidA, 3, 2, ca⟩])
    (hb1 : gs.players.2.board = [⟨ub, cidB, 2, 2, cb⟩]) :
    (resolve_combat gs).map (fun r =>
        (r.1.players.1.board, r.1.players.2.board,
         r.1.players.1.graveyard, r.1.players.2.graveyard,
         r.1.players.2.hp, r.2.player_damage, r.2.trade_count))
      = some ([], [], gs.players.1.graveyard ++ [cidA], gs.players.2.graveyard ++ [cidB],
              gs.players.2.hp, 0, 1) := by
  have hba : (ub == ua) = false := by
    simp [beq_iff_eq]
    exact fun h => hne h.symm
  have hab : (ua == ub) = false := by
    simp [beq_iff_eq]
    exact hne
  simp [resolve_combat, hcb, hap, GameState.active, GameState.opponent,
    GameState.opponent_idx, GameState.player, GameState.updatePlayer, GameState.setPlayer,
    combatDamageStep, boardFind, dmgAdd, applyUnitDamage, hitFirst, hb0, hb1,
    List.find?, List.lookup, hba, hab]

/-- Witness for C2 at a concrete state. -/
theorem C2_witness :
    (resolve_combat gsC2W).map (fun r =>
        (r.1.players.1.board, r.1.players.2.board,
         r.1.players.1.graveyard, r.1.players.2.graveyard,
         r.1.players.2.hp, r.2.player_damage, r.2.trade_count))
      = some ([], [], gsC2W.players.1.graveyard ++ ["atk_card"],
              gsC2W.players.2.graveyard ++ ["blk_card"], gsC2W.players.2.hp, 0, 1) :=
  C2_resolve_combat_simultaneous gsC2W 7 9 "atk_card" "blk_card" true false
    (by decide) rfl rfl rfl rfl

/-- C3: at the top of the turn loop, a match that has reached the 50-turn
limit without a result ends immediately: the player with strictly higher
HP wins, equal HP is a DRAW, the turn counter does not advance, and no
further turn is started. -/
theorem C3_turn_limit_tiebreak (tel rep tr : Bool) (ag : Agents) (ifuel fuel : Nat)
    (gs : GameState) (hres : gs.result = none) (hturn : MAX_TURNS ≤ gs.turn) :
    (run_game tel rep tr ag ifuel (fuel + 1) gs).map
        (fun r => (r.log.winner, r.log.turns, r.log.final_hp))
      = some (some (if gs.players.2.hp < gs.players.1.hp then GameResult.PLAYER_0_WIN
                    else if gs.players.1.hp < gs.players.2.hp then GameResult.PLAYER_1_WIN
                    else GameResult.DRAW),
              gs.turn, (gs.players.1.hp, gs.players.2.hp)) := by
  simp [run_game, gameLoop, hres, hturn]

/-- Witness for C3: at the cap with 15 versus 12 HP the 15-HP player wins. -/
theorem C3_witness :
    (run_game false false false agEnd 3 3 gsC3W).map
        (fun r => (r.log.winner, r.log.turns, r.log.final_hp))
      = some (some (if gsC3W.players.2.hp < gsC3W.players.1.hp then GameResult.PLAYER_0_WIN
                    else if gsC3W.players.1.hp < gsC3W.players.2.hp then GameResult.PLAYER_1_WIN
                    else GameResult.DRAW),
              gsC3W.turn, (gsC3W.players.1.hp, gsC3W.players.2.hp)) :=
  C3_turn_limit_tiebreak false false false agEnd 3 2 gsC3W rfl (by decide)

/-- C4: a player whose deck is empty at the start-of-turn draw step loses
immediately (the opponent wins): start_turn reports the opponent's win,
no player's board changes (in particular no can_attack flag is set) and no
player's hand changes, and the match terminates with that result, the HP
pair untouched. -/
theorem C4_deckout_is_loss (tel rep tr : Bool) (ag : Agents) (ifuel fuel : Nat)
    (gs : GameState) (hres : gs.result = none) (hturn : gs.turn < MAX_TURNS)
    (hdeck : (gs.player gs.active_player).deck = []) :
    ((start_turn gs).2
        = some (if gs.active_player = 0 then GameResult.PLAYER_1_WIN
                else GameResult.PLAYER_0_WIN))
    ∧ (∀ i, ((start_turn gs).1.player i).board = (gs.player i).board)
    ∧ (∀ i, ((start_turn gs).1.player i).hand = (gs.player i).hand)
    ∧ (run_game tel rep tr ag ifuel (fuel + 1) gs).map
          (fun r => (r.log.winner, r.log.turns, r.log.final_hp))
        = some (some (if gs.active_player = 0 then GameResult.PLAYER_1_WIN
                      else GameResult.PLAYER_0_WIN),
                gs.turn + 1, (gs.players.1.hp, gs.players.2.hp)) := by
  have hnot : ¬ MAX_TURNS ≤ gs.turn := Nat.not_le.mpr hturn
  clear hturn
  refine ⟨?_, ?_, ?_, ?_⟩
  · by_cases ha : gs.active_player = 0 <;>
      simp_all [start_turn, draw_one, GameState.updatePlayer, player_of_ne, setPlayer_of_ne]
  · intro i
    by_cases h0 : i = 0 <;> by_cases ha : gs.active_player = 0 <;>
      simp_all [start_turn, draw_one, GameState.updatePlayer, player_of_ne, setPlayer_of_ne]
  · intro i
    by_cases h0 : i = 0 <;> by_cases ha : gs.active_player = 0 <;>
      simp_all [start_turn, draw_one, GameState.updatePlayer, player_of_ne, setPlayer_of_ne]
  · by_cases ha : gs.active_player = 0 <;>
    · simp only [run_game, gameLoop, hres, eq_false hnot, if_false, ite_false]
      simp_all [startTurnStep, start_turn, draw_one, GameState.updatePlayer,
        player_of_ne, setPlayer_of_ne]

/-- Witness for C4: player 1 decks out, player 0 wins, boards and hands
unchanged. -/
theorem C4_witness :
    ((start_turn gsC4W).2
        = some (if gsC4W.active_player = 0 then GameResult.PLAYER_1_WIN
                else GameResult.PLAYER_0_WIN))
    ∧ (∀ i, ((start_turn gsC4W).1.player i).board = (gsC4W.player i).board)
    ∧ (∀ i, ((start_turn gsC4W).1.player i).hand = (gsC4W.player i).hand)
    ∧ (run_game true true true agEnd 3 3 gsC4W).map
          (fun r => (r.log.winner, r.log.turns, r.log.final_hp))
        = some (some (if gsC4W.active_player = 0 then GameResult.PLAYER_1_WIN
                      else GameResult.PLAYER_0_WIN),
                gsC4W.turn + 1, (gsC4W.players.1.hp, gsC4W.players.2.hp)) :=
  C4_deckout_is_loss true true true agEnd 3 2 gsC4W rfl (by decide) rfl

/-- C8: applying PlayCard removes the card at the hand index, pays its
mana cost, then places it (a fresh-uid summoning-sick UnitInstance
appended to the board for a unit, the card id appended to the graveyard
for a spell), and only after that placement/discard invokes the effect
resolver on the resulting state. -/
theorem C8_play_card_placement_then_effect (gs : GameState) (idx : Nat) (cid : String)
    (card : Card)
    (hidx : gs.active.hand.get? idx = some cid)
    (hcard : cardLookup gs.card_db cid = some card) :
    ∃ mid : GameState,
      apply_play_card gs idx = resolve_effect mid gs.active_player card.template card.params
      ∧ mid.active.hand = gs.active.hand.eraseIdx idx
      ∧ mid.active.mana = gs.active.mana - card.cost
      ∧ (card.is_unit = true →
           mid.active.board
             = gs.active.board
               ++ [⟨gs.next_uid, cid, card.params.atk.getD 0, card.params.hp.getD 0, false⟩]
           ∧ mid.next_uid = gs.next_uid + 1
           ∧ mid.active.graveyard = gs.active.graveyard)
      ∧ (card.is_unit = false →
           mid.active.graveyard = gs.active.graveyard ++ [cid]
           ∧ mid.active.board = gs.active.board
           ∧ mid.next_uid = gs.next_uid) := by
  cases hu : card.is_unit with
  | true =>
      refine ⟨{ (gs.updatePlayer gs.active_player (fun q =>
            { q with hand := q.hand.eraseIdx idx, mana := q.mana - card.cost })).updatePlayer
              gs.active_player (fun q =>
            { q with board := q.board
                ++ [⟨gs.next_uid, cid, card.params.atk.getD 0, card.params.hp.getD 0, false⟩] })
            with next_uid := gs.next_uid + 1 }, ?_, ?_, ?_, ?_, ?_⟩
      · simp only [apply_play_card, hidx, hcard]
        simp [hu, GameState.updatePlayer]
      · by_cases hap : gs.active_player = 0 <;>
          simp [GameState.active, GameState.updatePlayer, GameState.player, hap,
            player_of_ne, setPlayer_of_ne]
      · by_cases hap : gs.active_player = 0 <;>
          simp [GameState.active, GameState.updatePlayer, GameState.player, hap,
            player_of_ne, setPlayer_of_ne]
      · intro _
        refine ⟨?_, ?_, ?_⟩ <;> by_cases hap : gs.active_player = 0 <;>
          simp [GameState.active, GameState.updatePlayer, GameState.player, hap,
            player_of_ne, setPlayer_of_ne]
      · intro h
        exact Bool.noConfusion h
  | false =>
      refine ⟨(gs.updatePlayer gs.active_player (fun q =>
            { q with hand := q.hand.eraseIdx idx, mana := q.mana - card.cost })).updatePlayer
              gs.active_player (fun q =>
            { q with graveyard := q.graveyard ++ [cid] }), ?_, ?_, ?_, ?_, ?_⟩
      · simp only [apply_play_card, hidx, hcard]
        simp [hu, GameState.updatePlayer]
      · by_cases hap : gs.active_player = 0 <;>
          simp [GameState.active, GameState.updatePlayer, GameState.player, hap,
            player_of_ne, setPlayer_of_ne]
      · by_cases hap : gs.active_player = 0 <;>
          simp [GameState.active, GameState.updatePlayer, GameState.player, hap,
            player_of_ne, setPlayer_of_ne]
      · intro h
        exact Bool.noConfusion h
      · intro _
        refine ⟨?_, ?_, ?_⟩ <;> by_cases hap : gs.active_player = 0 <;>
          simp [GameState.active, GameState.updatePlayer, GameState.player, hap,
            player_of_ne, setPlayer_of_ne]

/-- Witness for C8: playing the unit at hand index 1 of a concrete state. -/
theorem C8_witness :
    ∃ mid : GameState,
      apply_play_card gsC8W 1
          = resolve_effect mid gsC8W.active_player soldierW.template soldierW.params
      ∧ mid.active.hand = gsC8W.active.hand.eraseIdx 1
      ∧ mid.active.mana = gsC8W.active.mana - soldierW.cost
      ∧ (soldierW.is_unit = true →
           mid.active.board
             = gsC8W.active.board
               ++ [⟨gsC8W.next_uid, "soldier", soldierW.params.atk.getD 0,
                    soldierW.params.hp.getD 0, false⟩]
           ∧ mid.next_uid = gsC8W.next_uid + 1
           ∧ mid.active.graveyard = gsC8W.active.graveyard)
      ∧ (soldierW.is_unit = false →
           mid.active.graveyard = gsC8W.active.graveyard ++ ["soldier"]
           ∧ mid.active.board = gsC8W.active.board
           ∧ mid.next_uid = gsC8W.next_uid) :=
  C8_play_card_placement_then_effect gsC8W 1 "soldier" soldierW (by rfl) (by rfl)

theorem combatDamageStep_player_damage (aboard dboard : List UnitInstance)
    (blocks : List (Nat × Nat)) (acc : DmgAcc) (a : Nat) :
    (combatDamageStep aboard dboard blocks acc a).player_damage
      = acc.player_damage + specAttackerPlayerDamage aboard dboard blocks a := by
  unfold combatDamageStep specAttackerPlayerDamage
  cases h1 : boardFind aboard a with
  | none => simp
  | some att =>
      cases h2 : blocks.lookup a with
      | none => simp
      | some b =>
          cases h3 : boardFind dboard b with
          | none => simp [h3]
          | some blk => simp [h3]

theorem foldl_combatDamage_player_damage (aboard dboard : List UnitInstance)
    (blocks : List (Nat × Nat)) (l : List Nat) :
    ∀ acc : DmgAcc,
      (l.foldl (combatDamageStep aboard dboard blocks) acc).player_damage
        = acc.player_damage
          + (l.map (specAttackerPlayerDamage aboard dboard blocks)).sum := by
  induction l with
  | nil => intro acc; simp
  | cons a t ih =>
      intro acc
      simp only [List.foldl_cons, List.map_cons, List.sum_cons, ih,
        combatDamageStep_player_damage]
      ring

theorem active_prop_ne_opponent (i : Nat) : (i = 0) ≠ (1 - i = 0) := by
  intro heq
  by_cases h : i = 0
  · have h2 : 1 - i = 0 := (iff_of_eq heq).mp h
    omega
  · have h1 : 1 - i = 0 := by omega
    exact h ((iff_of_eq heq).mpr h1)

/-- C7: during combat resolution the defending player loses exactly the
sum of the attack values of the declared attackers that are still on the
active board and are unblocked (no assigned blocker, or the assigned
blocker no longer on the defender board), and every surviving attacker on
the active board is marked unable to attack. -/
theorem C7_unblocked_damage_and_exhaust (gs : GameState) (c : CombatState)
    (hc : gs.combat = some c)
    (hseat : gs.active_player = 0 ∨ gs.active_player = 1) :
    ∃ gs2 st, resolve_combat gs = some (gs2, st)
      ∧ st.player_damage = specUnblockedDamage gs c
      ∧ gs2.active_player = gs.active_player
      ∧ gs2.opponent.hp = gs.opponent.hp - specUnblockedDamage gs c
      ∧ (∀ u ∈ gs2.active.board, u.uid ∈ c.attackers → u.can_attack = false) := by
  unfold resolve_combat
  rw [hc]
  refine ⟨_, _, rfl, ?_, ?_, ?_, ?_⟩
  · simp [foldl_combatDamage_player_damage, specUnblockedDamage]
  · simp [GameState.updatePlayer]
  · obtain hap | hap := hseat <;>
      simp [GameState.opponent, GameState.opponent_idx, GameState.updatePlayer, hap,
        GameState.active, GameState.player, foldl_combatDamage_player_damage,
        specUnblockedDamage]
  · intro u hu hm
    obtain hap | hap := hseat
    · simp [hap, GameState.active, GameState.updatePlayer, GameState.opponent_idx,
        GameState.player] at hu
      obtain ⟨v, hv, hvu⟩ := hu
      by_cases hvm : v.uid ∈ c.attackers
      · simp only [if_pos hvm] at hvu
        subst hvu
        rfl
      · simp only [if_neg hvm] at hvu
        subst hvu
        exact absurd hm hvm
    · simp [hap, GameState.active, GameState.updatePlayer, GameState.opponent_idx,
        GameState.player] at hu
      obtain ⟨v, hv, hvu⟩ := hu
      by_cases hvm : v.uid ∈ c.attackers
      · simp only [if_pos hvm] at hvu
        subst hvu
        rfl
      · simp only [if_neg hvm] at hvu
        subst hvu
        exact absurd hm hvm

/-- Witness for C7 at a concrete state. -/
theorem C7_witness :
    ∃ gs2 st, resolve_combat gsC7W = some (gs2, st)
      ∧ st.player_damage = specUnblockedDamage gsC7W ⟨[1], []⟩
      ∧ gs2.active_player = gsC7W.active_player
      ∧ gs2.opponent.hp = gsC7W.opponent.hp - specUnblockedDamage gsC7W ⟨[1], []⟩
      ∧ (∀ u ∈ gs2.active.board, u.uid ∈ CombatState.attackers ⟨[1], []⟩ →
           u.can_attack = false) :=
  C7_unblocked_damage_and_exhaust gsC7W ⟨[1], []⟩ rfl (Or.inl rfl)

theorem main_play_actions_eq (db : List (String × Card)) (mana : Int) (blen : Nat) :
    ∀ (hand : List String) (cards : List Card) (i : Nat),
      lookupAll db hand = some cards →
      (∀ c ∈ cards, c.card_type = "unit" ∨ c.card_type = "spell") →
      main_play_actions db mana blen hand i
        = some (((cards.enumFrom i).filter (fun ic =>
            decide (ic.2.cost ≤ mana) &&
            (ic.2.card_type == "spell"
              || (ic.2.card_type == "unit" && decide (blen < BOARD_LIMIT))))).map
          (fun ic => Action.PlayCard ic.1)) := by
  intro hand
  induction hand with
  | nil =>
      intro cards i hl ht
      simp only [lookupAll, Option.some.injEq] at hl
      subst hl
      simp [main_play_actions]
  | cons cid rest ih =>
      intro cards i hl ht
      simp only [lookupAll] at hl
      cases hcl : cardLookup db cid with
      | none => rw [hcl] at hl; cases hl
      | some c =>
          rw [hcl] at hl
          cases hrest : lookupAll db rest with
          | none => rw [hrest] at hl; cases hl
          | some cs =>
              rw [hrest] at hl
              simp only [Option.some.injEq] at hl
              subst hl
              have htype : c.card_type = "unit" ∨ c.card_type = "spell" :=
                ht c (List.mem_cons_self c cs)
              have hrec := ih cs (i + 1) hrest
                (fun x hx => ht x (List.mem_cons_of_mem _ hx))
              simp only [main_play_actions, hcl, hrec, List.enumFrom_cons]
              by_cases h1 : mana < c.cost
              · have h1n : ¬ c.cost ≤ mana := not_le.mpr h1
                simp [h1, h1n, List.filter_cons]
              · have h1y : c.cost ≤ mana := not_lt.mp h1
                obtain hty | hty := htype
                · -- a unit: kept exactly when the board has room
                  by_cases h2 : BOARD_LIMIT ≤ blen
                  · have : ¬ blen < BOARD_LIMIT := not_lt.mpr h2
                    simp [h1, h1y, h2, hty, Card.is_unit, this, List.filter_cons]
                  · have h2l : blen < BOARD_LIMIT := not_le.mp h2
                    simp [h1, h1y, h2, hty, Card.is_unit, h2l, List.filter_cons]
                · -- a spell: always kept
                  simp [h1, h1y, hty, Card.is_unit, List.filter_cons]

/-- C5: in the main phase the legal-action list is exactly one PlayCard
per hand card (in hand order) whose cost is at most the player's mana and
that is either a spell or a unit with board room (fewer than 7 units),
then GoToCombat exactly when some board unit can attack, then EndTurn,
always present and always last. -/
theorem C5_main_actions_exact (gs : GameState) (cards : List Card)
    (hl : lookupAll gs.card_db gs.active.hand = some cards)
    (ht : ∀ c ∈ cards, c.card_type = "unit" ∨ c.card_type = "spell") :
    get_main_actions gs = some (specMainActions gs cards)
    ∧ (specMainActions gs cards).getLast? = some Action.EndTurn := by
  constructor
  · unfold get_main_actions specMainActions specPlayCards
    simp only [main_play_actions_eq gs.card_db gs.active.mana gs.active.board.length
      gs.active.hand cards 0 hl ht]
    have henum : cards.enum = cards.enumFrom 0 := rfl
    simp only [henum, Option.some.injEq]
    congr 2
    simp [List.any_eq_true]
  · unfold specMainActions
    simp [List.getLast?_append_of_ne_nil]

/-- Witness for C5 on a concrete two-card hand. -/
theorem C5_witness :
    get_main_actions gsC8W = some (specMainActions gsC8W [boltW, soldierW])
    ∧ (specMainActions gsC8W [boltW, soldierW]).getLast? = some Action.EndTurn :=
  C5_main_actions_exact gsC8W [boltW, soldierW] (by rfl) (by decide)

theorem addAttack_length (acc : List (List Nat) × List Action) (uids : List Nat) :
    (addAttack acc uids).2.length ≤ acc.2.length + 1 := by
  unfold addAttack
  by_cases h : sortedKey uids ∈ acc.1 <;> simp [h]

theorem foldl_addAttack_length (l : List (List Nat)) :
    ∀ acc : List (List Nat) × List Action,
      ((l.foldl addAttack acc).2).length ≤ acc.2.length + l.length := by
  induction l with
  | nil => intro acc; simp
  | cons x t ih =>
      intro acc
      calc ((t.foldl addAttack (addAttack acc x)).2).length
          ≤ (addAttack acc x).2.length + t.length := ih _
        _ ≤ acc.2.length + 1 + t.length := by
            have := addAttack_length acc x
            omega
        _ = acc.2.length + (x :: t).length := by simp; omega

/-- C6 (amended): the DeclareAttack candidate list is exactly the
deduplication, by sorted attacker-uid tuple, of the listed pools (empty,
all, singles, all-but-one when n is at least 2), and its size is at most
2n + 2 for n eligible attackers.  The original claim's further assertion
that the candidate set is "never the full power set" fails for n at most
3 (see the counterexample), since there the pools cover every subset. -/
theorem C6_attack_candidates_bounded (gs : GameState) :
    get_attack_candidates gs = dedupAttack (attackProposals (eligibleAttackers gs))
    ∧ (get_attack_candidates gs).length ≤ 2 * (eligibleAttackers gs).length + 2 := by
  have hchar : get_attack_candidates gs
      = dedupAttack (attackProposals (eligibleAttackers gs)) := by
    unfold get_attack_candidates dedupAttack attackProposals eligibleAttackers
    generalize (gs.active.board.filter (fun u => u.can_attack)).map (fun u => u.uid) = A
    by_cases he : A.isEmpty
    · simp [attack_candidates_core, he]
    · by_cases h2 : 1 < A.length
      · simp [attack_candidates_core, he, h2, List.foldl_append, List.foldl_map]
      · simp [attack_candidates_core, he, h2, List.foldl_append, List.foldl_map]
  refine ⟨hchar, ?_⟩
  rw [hchar]
  unfold dedupAttack
  have hb := foldl_addAttack_length (attackProposals (eligibleAttackers gs)) ([], [])
  have hlen : (attackProposals (eligibleAttackers gs)).length
      ≤ 2 * (eligibleAttackers gs).length + 2 := by
    unfold attackProposals
    by_cases he : (eligibleAttackers gs).isEmpty
    · simp [he]
    · by_cases h2 : 1 < (eligibleAttackers gs).length <;> simp [he, h2] <;> omega
  simp only [List.length_nil] at hb
  omega

/-- Counterexample to C6 as stated: with n = 2 eligible attackers the
generated candidate set has exactly 4 elements and covers every one of
the 2^2 subsets of the eligible-attacker set, i.e. it IS the full power
set, contradicting "never the full power set". -/
theorem C6_counterexample_power_set :
    (eligibleAttackers gsC6W).length = 2
    ∧ (get_attack_candidates gsC6W).length = 4
    ∧ (∀ s ∈ ([[], [1], [2], [1, 2]] : List (List Nat)),
         Action.DeclareAttack s ∈ get_attack_candidates gsC6W)
    ∧ (∀ a ∈ get_attack_candidates gsC6W,
         ∃ s ∈ ([[], [1], [2], [1, 2]] : List (List Nat)),
           a = Action.DeclareAttack s) := by
  decide

-- ---------------------------------------------------------------------
-- C9: every generated DeclareBlock is a 1:1 partial matching
-- ---------------------------------------------------------------------

theorem orderedInsertB_perm (le : α → α → Bool) (a : α) (l : List α) :
    (orderedInsertB le a l).Perm (a :: l) := by
  induction l with
  | nil => simp [orderedInsertB]
  | cons b t ih =>
      unfold orderedInsertB
      by_cases h : le a b
      · simp [h]
      · simp only [h, if_false, Bool.false_eq_true]
        exact (List.Perm.cons b ih).trans (List.Perm.swap a b t)

theorem sortB_perm (le : α → α → Bool) (l : List α) : (sortB le l).Perm l := by
  induction l with
  | nil => simp [sortB]
  | cons a t ih =>
      unfold sortB
      exact (orderedInsertB_perm le a (sortB le t)).trans (List.Perm.cons a ih)

theorem addBlock_one_to_one (acc : List (List (Nat × Nat)) × List Action)
    (pairs : List (Nat × Nat)) (hacc : OneToOne acc.2)
    (h1 : (pairs.map Prod.fst).Nodup) (h2 : (pairs.map Prod.snd).Nodup) :
    OneToOne (addBlock acc pairs).2 := by
  intro q hq
  unfold addBlock at hq
  by_cases hm : sortB pairLeB pairs ∈ acc.1
  · simp only [hm, if_true, if_pos] at hq
    exact hacc q hq
  · simp only [hm, if_false, if_neg, not_false_iff] at hq
    rcases List.mem_append.mp hq with hq | hq
    · exact hacc q hq
    · simp only [List.mem_singleton, Action.DeclareBlock.injEq] at hq
      subst hq
      have hperm := sortB_perm pairLeB pairs
      exact ⟨((hperm.map Prod.fst).nodup_iff).mpr h1,
             ((hperm.map Prod.snd).nodup_iff).mpr h2⟩

theorem fold_pairs_one_to_one
    (f : (List (Nat × Nat) × List Nat) → Nat → List (Nat × Nat) × List Nat)
    (hf : PairStepOk f) :
    ∀ (l : List Nat) (st : List (Nat × Nat) × List Nat),
      l.Nodup →
      (st.1.map Prod.fst).Nodup → (st.1.map Prod.snd).Nodup →
      (∀ p ∈ st.1, p.1 ∈ st.2) → (∀ p ∈ st.1, p.2 ∉ l) →
      ((l.foldl f st).1.map Prod.fst).Nodup ∧ ((l.foldl f st).1.map Prod.snd).Nodup := by
  intro l
  induction l with
  | nil =>
      intro st _ h1 h2 _ _
      exact ⟨h1, h2⟩
  | cons a t ih =>
      intro st hnd h1 h2 h3 h4
      rw [List.foldl_cons]
      rcases hf st a with heq | ⟨b, hb, heq⟩
      · rw [heq]
        refine ih st (List.Nodup.of_cons hnd) h1 h2 h3 ?_
        intro p hp hmem
        exact h4 p hp (List.mem_cons_of_mem a hmem)
      · rw [heq]
        refine ih _ (List.Nodup.of_cons hnd) ?_ ?_ ?_ ?_
        · rw [List.map_append]
          simp only [List.map_cons, List.map_nil]
          rw [List.nodup_append]
          refine ⟨h1, List.nodup_singleton b, ?_⟩
          intro x hx hxb
          simp only [List.mem_singleton] at hxb
          obtain ⟨p, hp, hpx⟩ := List.mem_map.mp hx
          refine hb ?_
          rw [← hxb, ← hpx]
          exact h3 p hp
        · rw [List.map_append]
          simp only [List.map_cons, List.map_nil]
          rw [List.nodup_append]
          refine ⟨h2, List.nodup_singleton a, ?_⟩
          intro x hx hxa
          simp only [List.mem_singleton] at hxa
          obtain ⟨p, hp, hpx⟩ := List.mem_map.mp hx
          refine h4 p hp ?_
          rw [hpx, hxa]
          exact List.mem_cons_self a t
        · intro p hp
          rcases List.mem_append.mp hp with hp | hp
          · exact List.mem_append_left _ (h3 p hp)
          · simp only [List.mem_singleton] at hp
            subst hp
            simp
        · intro p hp
          rcases List.mem_append.mp hp with hp | hp
          · intro hmem
            exact h4 p hp (List.mem_cons_of_mem a hmem)
          · simp only [List.mem_singleton] at hp
            subst hp
            simp only
            exact (List.nodup_cons.mp hnd).1

theorem bestBlocker_unused (blockers : List UnitInstance) (used : List Nat)
    (a : UnitInstance) :
    ∀ b, (bestBlocker blockers used a).1 = some b → b.uid ∉ used := by
  unfold bestBlocker
  suffices h : ∀ (l : List UnitInstance) (acc : Option UnitInstance × ℚ),
      (∀ b, acc.1 = some b → b.uid ∉ used) →
      ∀ b, (l.foldl (fun best b =>
          if b.uid ∈ used then best
          else
            let score := blockScore b a
            if best.2 < score then (some b, score) else best) acc).1 = some b →
        b.uid ∉ used by
    intro b
    exact h blockers (none, -999) (by intro x hx; cases hx) b
  intro l
  induction l with
  | nil => intro acc hacc b hb; exact hacc b hb
  | cons c t ih =>
      intro acc hacc b hb
      rw [List.foldl_cons] at hb
      by_cases hc : c.uid ∈ used
      · simp only [hc, if_true, if_pos] at hb
        exact ih acc hacc b hb
      · simp only [hc, if_false, if_neg, not_false_iff] at hb
        by_cases hs : acc.2 < blockScore c a
        · simp only [hs, if_true, if_pos] at hb
          refine ih _ ?_ b hb
          intro x hx
          simp only [Option.some.injEq] at hx
          subst hx
          exact hc
        · simp only [hs, if_false, if_neg, not_false_iff] at hb
          exact ih acc hacc b hb

theorem greedyStep_ok (amap : Nat → Option UnitInstance) (blockers : List UnitInstance) :
    PairStepOk (greedyStep amap blockers) := by
  intro st a
  cases ha : amap a with
  | none => exact Or.inl (by simp [greedyStep, ha])
  | some a_unit =>
      cases hb : (bestBlocker blockers st.2 a_unit).1 with
      | none => exact Or.inl (by simp [greedyStep, ha, hb])
      | some b =>
          by_cases hs : 0 < (bestBlocker blockers st.2 a_unit).2
          · exact Or.inr ⟨b.uid, bestBlocker_unused blockers st.2 a_unit b hb,
              by simp [greedyStep, ha, hb, hs]⟩
          · exact Or.inl (by simp [greedyStep, ha, hb, hs])

theorem maxStep_ok (blockers : List UnitInstance) : PairStepOk (maxStep blockers) := by
  intro st a
  unfold maxStep
  cases hf : blockers.find? (fun b => !(st.2.contains b.uid)) with
  | none => exact Or.inl rfl
  | some b =>
      refine Or.inr ⟨b.uid, ?_, rfl⟩
      have h2 := List.find?_some hf
      simp only [Bool.not_eq_true'] at h2
      simpa using h2

theorem greedyAdd_one_to_one (aboard blockers : List UnitInstance)
    (sorted_attackers : List Nat) (hnd : sorted_attackers.Nodup)
    (acc : List (List (Nat × Nat)) × List Action) (hacc : OneToOne acc.2) :
    OneToOne (greedyAdd aboard blockers sorted_attackers acc).2 := by
  unfold greedyAdd
  by_cases he : (greedyPairs aboard blockers sorted_attackers).1.isEmpty
  · simpa [he] using hacc
  · have hg := fold_pairs_one_to_one _
      (greedyStep_ok (fun uid => boardFind aboard uid) blockers) sorted_attackers
      ([], []) hnd (by simp) (by simp) (by simp) (by simp)
    simpa [he] using addBlock_one_to_one acc _ hacc hg.1 hg.2

theorem maxAdd_one_to_one (blockers : List UnitInstance) (attacker_uids : List Nat)
    (hnd : attacker_uids.Nodup) (acc : List (List (Nat × Nat)) × List Action)
    (hacc : OneToOne acc.2) : OneToOne (maxAdd blockers attacker_uids acc).2 := by
  unfold maxAdd
  by_cases he : (maxPairs blockers attacker_uids).1.isEmpty
  · simpa [he] using hacc
  · have hg := fold_pairs_one_to_one _ (maxStep_ok blockers) attacker_uids
      ([], []) hnd (by simp) (by simp) (by simp) (by simp)
    simpa [he] using addBlock_one_to_one acc _ hacc hg.1 hg.2

theorem singles_fold_one_to_one (strongest : Nat) :
    ∀ (blockers : List UnitInstance) (acc : List (List (Nat × Nat)) × List Action),
      OneToOne acc.2 →
      OneToOne (blockers.foldl (fun a b => addBlock a [(b.uid, strongest)]) acc).2 := by
  intro blockers
  induction blockers with
  | nil => exact fun acc h => h
  | cons b t ih =>
      intro acc hacc
      rw [List.foldl_cons]
      exact ih _ (addBlock_one_to_one acc _ hacc (by simp) (by simp))

theorem singlesAdd_one_to_one (blockers : List UnitInstance) (sorted_attackers : List Nat)
    (acc : List (List (Nat × Nat)) × List Action) (hacc : OneToOne acc.2) :
    OneToOne (singlesAdd blockers sorted_attackers acc).2 := by
  unfold singlesAdd
  cases sorted_attackers with
  | nil => exact hacc
  | cons strongest rest => exact singles_fold_one_to_one strongest blockers acc hacc

theorem block_candidates_core_one_to_one (attacker_uids : List Nat)
    (blockers aboard : List UnitInstance) (hnd : attacker_uids.Nodup) :
    OneToOne (block_candidates_core attacker_uids blockers aboard) := by
  unfold block_candidates_core
  by_cases he : blockers.isEmpty || attacker_uids.isEmpty
  · simp only [he, if_true, if_pos]
    intro q hq
    simp [addBlock, sortB] at hq
    subst hq
    simp
  · simp only [he, if_false, if_neg, not_false_iff, Bool.false_eq_true]
    have h0 : OneToOne (addBlock ([], []) ([] : List (Nat × Nat))).2 := by
      intro q hq
      simp [addBlock, sortB] at hq
      subst hq
      simp
    have hsortnd : (sortedAttackers aboard attacker_uids).Nodup :=
      (sortB_perm _ attacker_uids).nodup_iff.mpr hnd
    exact singlesAdd_one_to_one blockers _ _
      (maxAdd_one_to_one blockers attacker_uids hnd _
        (greedyAdd_one_to_one aboard blockers _ hsortnd _ h0))

/-- C9: in the combat_block phase every DeclareBlock candidate the engine
generates is a 1:1 partial matching: no blocker uid is assigned to two
attackers and no attacker uid receives two blockers (the declared
attacker list is duplicate-free, as every attack declaration built from a
board is). -/
theorem C9_block_candidates_one_to_one (gs : GameState) (c : CombatState)
    (l : List Action) (hc : gs.combat = some c) (hnd : c.attackers.Nodup)
    (hl : get_block_candidates gs = some l) :
    ∀ pairs, Action.DeclareBlock pairs ∈ l →
      (pairs.map Prod.fst).Nodup ∧ (pairs.map Prod.snd).Nodup := by
  unfold get_block_candidates at hl
  rw [hc] at hl
  simp only [Option.some.injEq] at hl
  subst hl
  exact block_candidates_core_one_to_one c.attackers gs.opponent.board
    gs.active.board hnd

/-- Witness for C9 at a concrete state and the concrete no-block action the
engine generates there. -/
theorem C9_witness :
    (([] : List (Nat × Nat)).map Prod.fst).Nodup
      ∧ (([] : List (Nat × Nat)).map Prod.snd).Nodup :=
  C9_block_candidates_one_to_one gsC9W ⟨[1, 2], []⟩ _ rfl (by decide) rfl
    [] (by decide)

theorem Inv.player {gs : GameState} (h : Inv gs) (i : Nat) : PlayerInv (gs.player i) := by
  unfold GameState.player
  split
  · exact h.1
  · exact h.2

theorem Inv_setPlayer (gs : GameState) (i : Nat) (p : PlayerState)
    (h : Inv gs) (hp : PlayerInv p) : Inv (gs.setPlayer i p) := by
  unfold GameState.setPlayer
  split
  · exact ⟨hp, h.2⟩
  · exact ⟨h.1, hp⟩

theorem Inv_updatePlayer (gs : GameState) (i : Nat) (f : PlayerState → PlayerState)
    (h : Inv gs) (hf : PlayerInv (f (gs.player i))) : Inv (gs.updatePlayer i f) :=
  Inv_setPlayer gs i _ h hf

theorem draw_one_inv (gs : GameState) (i : Nat) (h : Inv gs) : Inv (draw_one gs i).1 := by
  show Inv ((match (gs.player i).deck with
    | [] => (gs, false)
    | c :: rest =>
        (gs.setPlayer i { gs.player i with deck := rest, hand := (gs.player i).hand ++ [c] },
         true)).1)
  cases hd : (gs.player i).deck with
  | nil => exact h
  | cons c rest =>
      exact Inv_setPlayer gs i _ h
        ⟨(h.player i).1, (h.player i).2.1, (h.player i).2.2⟩

theorem drawN_inv (gs : GameState) (i : Nat) (n : Nat) (h : Inv gs) :
    Inv (drawN gs i n) := by
  induction n generalizing gs with
  | zero => exact h
  | succ m ih => exact ih _ (draw_one_inv gs i h)

theorem removeFirstLe_length (m : Int) (b : List UnitInstance) :
    (removeFirstLe m b).1.length ≤ b.length := by
  induction b with
  | nil => simp [removeFirstLe]
  | cons u rest ih =>
      unfold removeFirstLe
      by_cases hu : u.hp ≤ m
      · simp only [hu, if_true, if_pos]
        simp
      · simp only [hu, if_false, if_neg, not_false_iff]
        simp only [List.length_cons]
        omega

theorem removeUnit_playerInv (max_hp : Int) (p : PlayerState) (hp : PlayerInv p) :
    PlayerInv
      (let r := removeFirstLe max_hp p.board
       match r.2 with
       | none => p
       | some cid => { p with board := r.1, graveyard := p.graveyard ++ [cid] }) := by
  show PlayerInv (match (removeFirstLe max_hp p.board).2 with
    | none => p
    | some cid =>
        { p with board := (removeFirstLe max_hp p.board).1,
                 graveyard := p.graveyard ++ [cid] })
  cases hr : (removeFirstLe max_hp p.board).2 with
  | none => exact hp
  | some cid =>
      refine ⟨hp.1, hp.2.1, ?_⟩
      calc (removeFirstLe max_hp p.board).1.length
          ≤ p.board.length := removeFirstLe_length _ _
        _ ≤ BOARD_LIMIT := hp.2.2

theorem resolve_effect_inv (gs : GameState) (i : Nat) (t : String) (p : Params)
    (gs2 : GameState) (happ : resolve_effect gs i t p = some gs2) (h : Inv gs) :
    Inv gs2 := by
  unfold resolve_effect at happ
  split_ifs at happ
  · exact Option.some.inj happ ▸ h
  · cases hp : p.amount with
    | none => rw [hp] at happ; cases happ
    | some amount =>
        rw [hp] at happ
        refine Option.some.inj happ ▸ Inv_updatePlayer _ _ _ h ?_
        exact ⟨(h.player _).1, (h.player _).2.1, (h.player _).2.2⟩
  · cases hp : p.n with
    | none => rw [hp] at happ; cases happ
    | some n =>
        rw [hp] at happ
        exact Option.some.inj happ ▸ drawN_inv gs i n h
  · cases hp : p.amount with
    | none => rw [hp] at happ; cases happ
    | some amount =>
        rw [hp] at happ
        refine Option.some.inj happ ▸ Inv_updatePlayer _ _ _ h ?_
        exact ⟨(h.player _).1, (h.player _).2.1, (h.player _).2.2⟩
  · cases hp : p.max_hp with
    | none => rw [hp] at happ; cases happ
    | some max_hp =>
        rw [hp] at happ
        exact Option.some.inj happ ▸ Inv_updatePlayer _ _ _ h
          (removeUnit_playerInv max_hp _ (h.player _))

theorem mana_refill_playerInv (p : PlayerState) (hp : PlayerInv p) :
    PlayerInv
      (let mm := min (p.mana_max + 1) 10
       { p with mana_max := mm, mana := mm }) := by
  have h0 : (0 : Int) ≤ min (p.mana_max + 1) 10 := by
    have := hp.2.1
    refine le_min (by omega) (by norm_num)
  exact ⟨h0, h0, hp.2.2⟩

theorem wake_playerInv (p : PlayerState) (hp : PlayerInv p) :
    PlayerInv { p with board := p.board.map (fun u => { u with can_attack := true }) } := by
  refine ⟨hp.1, hp.2.1, ?_⟩
  simpa using hp.2.2

theorem start_turn_inv (gs : GameState) (h : Inv gs) : Inv (start_turn gs).1 := by
  have hsplit : ∀ (b : Bool) (X Y : GameState) (r1 r2 : Option GameResult),
      Inv X → Inv Y → Inv ((if b then (X, r1) else (Y, r2)).1) := by
    intro b X Y r1 r2 hX hY
    cases b
    · exact hY
    · exact hX
  simp only [start_turn]
  apply hsplit
  · apply Inv_updatePlayer
    · apply draw_one_inv
      apply Inv_updatePlayer
      · exact h
      · exact mana_refill_playerInv _ (Inv.player h _)
    · apply wake_playerInv
      apply Inv.player
      apply draw_one_inv
      apply Inv_updatePlayer
      · exact h
      · exact mana_refill_playerInv _ (Inv.player h _)
  · apply draw_one_inv
    apply Inv_updatePlayer
    · exact h
    · exact mana_refill_playerInv _ (Inv.player h _)

theorem hitFirst_length (b : List UnitInstance) (uid : Nat) (dmg : Int) :
    (hitFirst b uid dmg).length = b.length := by
  induction b with
  | nil => simp [hitFirst]
  | cons u rest ih =>
      unfold hitFirst
      by_cases hu : u.uid = uid <;> simp [hu, ih]

theorem applyUnitDamage_length (bs : List UnitInstance × List UnitInstance)
    (kv : Nat × Int) :
    (applyUnitDamage bs kv).1.length = bs.1.length
    ∧ (applyUnitDamage bs kv).2.length = bs.2.length := by
  unfold applyUnitDamage
  split_ifs <;> simp [hitFirst_length]

theorem foldl_applyUnitDamage_length (l : List (Nat × Int)) :
    ∀ bs : List UnitInstance × List UnitInstance,
      (l.foldl applyUnitDamage bs).1.length = bs.1.length
      ∧ (l.foldl applyUnitDamage bs).2.length = bs.2.length := by
  induction l with
  | nil => intro bs; exact ⟨rfl, rfl⟩
  | cons kv rest ih =>
      intro bs
      rw [List.foldl_cons]
      have h1 := applyUnitDamage_length bs kv
      have h2 := ih (applyUnitDamage bs kv)
      omega

theorem Inv_players_eq {gs gs2 : GameState} (hp : gs2.players = gs.players)
    (h : Inv gs) : Inv gs2 := by
  unfold Inv at *
  rw [hp]
  exact h

theorem Inv_two_updates (gs : GameState) (i j : Nat) (f1 f2 : PlayerState → PlayerState)
    (h : Inv gs) (hf1 : ∀ p, PlayerInv p → PlayerInv (f1 p))
    (hf2 : ∀ p, PlayerInv p → PlayerInv (f2 p)) :
    Inv ((gs.updatePlayer i f1).updatePlayer j f2) :=
  Inv_updatePlayer _ _ _ (Inv_updatePlayer _ _ _ h (hf1 _ (h.player i)))
    (hf2 _ ((Inv_updatePlayer _ _ _ h (hf1 _ (h.player i))).player j))

theorem resolve_combat_inv (gs gs2 : GameState) (st : CombatStats)
    (happ : resolve_combat gs = some (gs2, st)) (h : Inv gs) : Inv gs2 := by
  unfold resolve_combat at happ
  cases hc : gs.combat with
  | none => rw [hc] at happ; cases happ
  | some c =>
      rw [hc] at happ
      simp only [Option.some.injEq, Prod.mk.injEq] at happ
      obtain ⟨hgs2, _⟩ := happ
      have hlen := foldl_applyUnitDamage_length
        ((c.attackers.foldl
          (combatDamageStep gs.active.board gs.opponent.board c.blocks)
          {}).unit_damage) (gs.active.board, gs.opponent.board)
      rw [← hgs2]
      refine Inv_players_eq rfl (Inv_two_updates _ _ _ _ _ h ?_ ?_)
      · intro p hp
        refine ⟨hp.1, hp.2.1, ?_⟩
        simp only [List.length_map]
        refine le_trans (List.length_filter_le _ _) ?_
        rw [hlen.1]
        exact (h.player gs.active_player).2.2
      · intro p hp
        refine ⟨hp.1, hp.2.1, ?_⟩
        refine le_trans (List.length_filter_le _ _) ?_
        rw [hlen.2]
        exact (h.player gs.opponent_idx).2.2

theorem main_play_actions_mem (db : List (String × Card)) (mana : Int) (blen : Nat) :
    ∀ (hand : List String) (j : Nat) (acts : List Action),
      main_play_actions db mana blen hand j = some acts →
      ∀ i, Action.PlayCard i ∈ acts →
        ∃ cid card, hand.get? (i - j) = some cid ∧ j ≤ i
          ∧ cardLookup db cid = some card
          ∧ card.cost ≤ mana ∧ (card.is_unit = true → blen < BOARD_LIMIT) := by
  intro hand
  induction hand with
  | nil =>
      intro j acts hacts i hi
      simp only [main_play_actions, Option.some.injEq] at hacts
      subst hacts
      cases hi
  | cons cid0 rest ih =>
      intro j acts hacts i hi
      simp only [main_play_actions] at hacts
      cases hcl : cardLookup db cid0 with
      | none => simp [hcl] at hacts
      | some c =>
          cases hrest : main_play_actions db mana blen rest (j + 1) with
          | none => simp [hcl, hrest] at hacts
          | some tail =>
              simp only [hcl, hrest] at hacts
              have hrec : ∀ i, Action.PlayCard i ∈ tail →
                  ∃ cid card, (cid0 :: rest).get? (i - j) = some cid ∧ j ≤ i
                    ∧ cardLookup db cid = some card
                    ∧ card.cost ≤ mana ∧ (card.is_unit = true → blen < BOARD_LIMIT) := by
                intro k hk
                obtain ⟨cid, card, hg, hj, hc2, hc3, hc4⟩ := ih (j + 1) tail hrest k hk
                refine ⟨cid, card, ?_, by omega, hc2, hc3, hc4⟩
                have hkj : k - j = (k - (j + 1)) + 1 := by omega
                rw [hkj]
                simpa using hg
              by_cases h1 : mana < c.cost
              · rw [if_pos h1] at hacts
                cases Option.some.inj hacts
                exact hrec i hi
              · rw [if_neg h1] at hacts
                by_cases h2 : (c.is_unit && decide (BOARD_LIMIT ≤ blen)) = true
                · rw [if_pos h2] at hacts
                  cases Option.some.inj hacts
                  exact hrec i hi
                · rw [if_neg h2] at hacts
                  cases Option.some.inj hacts
                  rcases List.mem_cons.mp hi with hhead | htail
                  · have hij : i = j := by
                      cases hhead
                      rfl
                    subst hij
                    refine ⟨cid0, c, by simp, le_refl i, hcl, not_lt.mp h1, ?_⟩
                    intro hu
                    simp only [hu, Bool.true_and] at h2
                    simpa using h2
                  · exact hrec i htail

theorem addAttack_shape (acc : List (List Nat) × List Action) (uids : List Nat)
    (h : ∀ x ∈ acc.2, ∃ u, x = Action.DeclareAttack u) :
    ∀ x ∈ (addAttack acc uids).2, ∃ u, x = Action.DeclareAttack u := by
  intro x hx
  unfold addAttack at hx
  by_cases hm : sortedKey uids ∈ acc.1
  · simp only [hm, if_true, if_pos] at hx
    exact h x hx
  · simp only [hm, if_false, if_neg, not_false_iff] at hx
    rcases List.mem_append.mp hx with hx | hx
    · exact h x hx
    · simp only [List.mem_singleton] at hx
      exact ⟨_, hx⟩

theorem foldl_addAttack_shape (g : Nat → List Nat) (l : List Nat) :
    ∀ acc : List (List Nat) × List Action,
      (∀ x ∈ acc.2, ∃ u, x = Action.DeclareAttack u) →
      ∀ x ∈ (l.foldl (fun a u => addAttack a (g u)) acc).2, ∃ u, x = Action.DeclareAttack u := by
  induction l with
  | nil => intro acc h; exact h
  | cons a t ih =>
      intro acc h
      rw [List.foldl_cons]
      exact ih _ (addAttack_shape acc (g a) h)

theorem attack_candidates_shape (A : List Nat) :
    ∀ x ∈ attack_candidates_core A, ∃ u, x = Action.DeclareAttack u := by
  unfold attack_candidates_core
  have h0 : ∀ x ∈ (addAttack ([], []) []).2, ∃ u, x = Action.DeclareAttack u :=
    addAttack_shape ([], []) [] (by intro x hx; cases hx)
  by_cases he : A.isEmpty
  · simpa [he] using h0
  · by_cases h2 : 1 < A.length
    · simp only [he, h2, if_false, if_true, if_pos, if_neg, not_false_iff,
        Bool.false_eq_true]
      exact foldl_addAttack_shape _ A _
        (foldl_addAttack_shape (fun u => [u]) A _ (addAttack_shape _ A h0))
    · simp only [he, h2, if_false, if_neg, not_false_iff, Bool.false_eq_true]
      exact foldl_addAttack_shape (fun u => [u]) A _ (addAttack_shape _ A h0)

theorem addBlock_shape (acc : List (List (Nat × Nat)) × List Action)
    (pairs : List (Nat × Nat))
    (h : ∀ x ∈ acc.2, ∃ p, x = Action.DeclareBlock p) :
    ∀ x ∈ (addBlock acc pairs).2, ∃ p, x = Action.DeclareBlock p := by
  intro x hx
  unfold addBlock at hx
  by_cases hm : sortB pairLeB pairs ∈ acc.1
  · simp only [hm, if_true, if_pos] at hx
    exact h x hx
  · simp only [hm, if_false, if_neg, not_false_iff] at hx
    rcases List.mem_append.mp hx with hx | hx
    · exact h x hx
    · simp only [List.mem_singleton] at hx
      exact ⟨_, hx⟩

theorem block_candidates_shape (A : List Nat) (blockers aboard : List UnitInstance) :
    ∀ x ∈ block_candidates_core A blockers aboard, ∃ p, x = Action.DeclareBlock p := by
  unfold block_candidates_core
  have h0 : ∀ x ∈ (addBlock ([], []) []).2, ∃ p, x = Action.DeclareBlock p :=
    addBlock_shape ([], []) [] (by intro x hx; cases hx)
  by_cases he : blockers.isEmpty || A.isEmpty
  · simpa [he] using h0
  · simp only [he, if_false, if_neg, not_false_iff, Bool.false_eq_true]
    have hg : ∀ x ∈ (greedyAdd aboard blockers (sortedAttackers aboard A)
        (addBlock ([], []) [])).2, ∃ p, x = Action.DeclareBlock p := by
      unfold greedyAdd
      by_cases hge : (greedyPairs aboard blockers (sortedAttackers aboard A)).1.isEmpty
      · simpa [hge] using h0
      · simpa [hge] using addBlock_shape _ _ h0
    have hm : ∀ x ∈ (maxAdd blockers A (greedyAdd aboard blockers
        (sortedAttackers aboard A) (addBlock ([], []) []))).2,
        ∃ p, x = Action.DeclareBlock p := by
      unfold maxAdd
      by_cases hme : (maxPairs blockers A).1.isEmpty
      · simpa [hme] using hg
      · simpa [hme] using addBlock_shape _ _ hg
    unfold singlesAdd
    cases hsa : sortedAttackers aboard A with
    | nil =>
        rw [hsa] at hm
        exact hm
    | cons strongest rest =>
        rw [hsa] at hm
        have : ∀ (bl : List UnitInstance)
            (acc : List (List (Nat × Nat)) × List Action),
            (∀ x ∈ acc.2, ∃ p, x = Action.DeclareBlock p) →
            ∀ x ∈ (bl.foldl (fun a b => addBlock a [(b.uid, strongest)]) acc).2,
              ∃ p, x = Action.DeclareBlock p := by
          intro bl
          induction bl with
          | nil => intro acc h; exact h
          | cons b t ih =>
              intro acc h
              rw [List.foldl_cons]
              exact ih _ (addBlock_shape acc _ h)
        exact this blockers _ hm

theorem get_legal_PlayCard_facts (gs : GameState) (l : List Action) (i : Nat)
    (hl : get_legal_actions gs = some l) (hi : Action.PlayCard i ∈ l) :
    ∃ cid card, gs.active.hand.get? i = some cid
      ∧ cardLookup gs.card_db cid = some card
      ∧ card.cost ≤ gs.active.mana
      ∧ (card.is_unit = true → gs.active.board.length < BOARD_LIMIT) := by
  unfold get_legal_actions at hl
  cases hph : gs.phase with
  | main =>
      rw [hph] at hl
      simp only [get_main_actions] at hl
      cases hmp : main_play_actions gs.card_db gs.active.mana gs.active.board.length
          gs.active.hand 0 with
      | none => simp [hmp] at hl
      | some plays =>
          simp only [hmp, Option.some.injEq] at hl
          subst hl
          rcases List.mem_append.mp hi with hi2 | hi2
          · rcases List.mem_append.mp hi2 with hi3 | hi3
            · obtain ⟨cid, card, hg, _, hc2, hc3, hc4⟩ :=
                main_play_actions_mem gs.card_db gs.active.mana gs.active.board.length
                  gs.active.hand 0 plays hmp i hi3
              refine ⟨cid, card, ?_, hc2, hc3, hc4⟩
              simpa using hg
            · by_cases hb : gs.active.board.any (fun u => u.can_attack)
              · simp only [hb, if_true, if_pos] at hi3
                simp at hi3
              · simp only [hb, if_false] at hi3
                simp at hi3
          · simp at hi2
  | combat_attack =>
      rw [hph] at hl
      simp only [Option.some.injEq] at hl
      subst hl
      obtain ⟨u, hu⟩ := attack_candidates_shape _ _ hi
      cases hu
  | combat_block =>
      rw [hph] at hl
      simp only [get_block_candidates] at hl
      cases hc : gs.combat with
      | none => simp [hc] at hl
      | some c =>
          simp only [hc, Option.some.injEq] at hl
          subst hl
          obtain ⟨p, hp⟩ := block_candidates_shape _ _ _ _ hi
          cases hp
  | endp =>
      rw [hph] at hl
      simp only [Option.some.injEq] at hl
      subst hl
      simp at hi

theorem apply_play_card_inv (gs : GameState) (i : Nat) (gs2 : GameState)
    (hInv : Inv gs) (cid : String) (card : Card)
    (hg : gs.active.hand.get? i = some cid)
    (hcl : cardLookup gs.card_db cid = some card)
    (hcost : card.cost ≤ gs.active.mana)
    (hroom : card.is_unit = true → gs.active.board.length < BOARD_LIMIT)
    (happ : apply_play_card gs i = some gs2) : Inv gs2 := by
  simp only [GameState.active] at hcost hroom
  simp only [apply_play_card, hg, hcl] at happ
  have h1 : Inv (gs.updatePlayer gs.active_player (fun q =>
      { q with hand := q.hand.eraseIdx i, mana := q.mana - card.cost })) := by
    refine Inv_updatePlayer _ _ _ hInv ?_
    refine ⟨?_, (hInv.player _).2.1, (hInv.player _).2.2⟩
    have h0 := (hInv.player gs.active_player).1
    simp only
    omega
  by_cases hu : card.is_unit
  · rw [if_pos hu] at happ
    refine resolve_effect_inv _ _ _ _ _ happ ?_
    refine Inv_players_eq rfl (Inv_updatePlayer _ _ _ h1 ?_)
    refine ⟨(h1.player _).1, (h1.player _).2.1, ?_⟩
    simp only [GameState.updatePlayer, player_setPlayer_self]
    simp only [List.length_append, List.length_singleton]
    have := hroom hu
    omega
  · rw [if_neg hu] at happ
    refine resolve_effect_inv _ _ _ _ _ happ ?_
    refine Inv_updatePlayer _ _ _ h1 ?_
    exact ⟨(h1.player _).1, (h1.player _).2.1, (h1.player _).2.2⟩

theorem apply_action_inv (gs gs2 : GameState) (a : Action) (l : List Action)
    (hl : get_legal_actions gs = some l) (ha : a ∈ l)
    (happ : apply_action gs a = some gs2) (h : Inv gs) : Inv gs2 := by
  cases a with
  | PlayCard i =>
      obtain ⟨cid, card, hg, hcl, hcost, hroom⟩ := get_legal_PlayCard_facts gs l i hl ha
      exact apply_play_card_inv gs i gs2 h cid card hg hcl hcost hroom happ
  | GoToCombat =>
      simp only [apply_action, Option.some.injEq] at happ
      rw [← happ]
      exact Inv_players_eq rfl h
  | DeclareAttack uids =>
      simp only [apply_action, apply_declare_attack] at happ
      cases hc : gs.combat with
      | none => simp [hc] at happ
      | some c =>
          simp only [hc] at happ
          by_cases he : uids.isEmpty
          · simp only [he, if_true, if_pos, Option.some.injEq] at happ
            rw [← happ]
            exact Inv_players_eq rfl h
          · simp only [he, if_false, if_neg, not_false_iff, Option.some.injEq,
              Bool.false_eq_true] at happ
            rw [← happ]
            exact Inv_players_eq rfl h
  | DeclareBlock pairs =>
      simp only [apply_action, apply_declare_block] at happ
      cases hc : gs.combat with
      | none => simp [hc] at happ
      | some c =>
          simp only [hc, Option.some.injEq] at happ
          rw [← happ]
          exact Inv_players_eq rfl h
  | EndTurn =>
      simp only [apply_action, Option.some.injEq] at happ
      rw [← happ]
      exact h

theorem EngineStep_inv {gs gs2 : GameState} (hstep : EngineStep gs gs2) (h : Inv gs) :
    Inv gs2 := by
  cases hstep with
  | legal gs2 a l hl ha happ => exact apply_action_inv _ _ _ _ hl ha happ h
  | upkeep => exact start_turn_inv _ h
  | combat gs2 st hr => exact resolve_combat_inv _ _ _ hr h
  | set_phase ph => exact Inv_players_eq rfl h
  | set_result r => exact Inv_players_eq rfl h
  | seat_swap => exact Inv_players_eq rfl h

theorem foldl_draw_inv (l : List Nat) (i : Nat) :
    ∀ gs : GameState, Inv gs → Inv (l.foldl (fun g _ => (draw_one g i).1) gs) := by
  induction l with
  | nil => intro gs h; exact h
  | cons a t ih =>
      intro gs h
      rw [List.foldl_cons]
      exact ih _ (draw_one_inv gs i h)

theorem init_game_inv (impl : RngImpl) (db : List (String × Card)) (da db2 : DeckDef)
    (seed : Nat) : Inv (init_game impl db da db2 seed) := by
  simp only [init_game]
  apply foldl_draw_inv
  apply foldl_draw_inv
  refine Inv_players_eq rfl ?_
  exact ⟨⟨le_refl 0, le_refl 0, by simp [BOARD_LIMIT]⟩,
         ⟨le_refl 0, le_refl 0, by simp [BOARD_LIMIT]⟩⟩

/-- C10: from any initial state, as long as every applied action is drawn
from the legal-action list of the state it is applied to, every reachable
state keeps both players' mana non-negative and both boards at no more
than 7 units — apply_action itself checks neither bound; legal-action
generation alone guarantees them. -/
theorem C10_legal_play_invariant (impl : RngImpl) (db : List (String × Card))
    (da db2 : DeckDef) (seed : Nat) (gs : GameState)
    (h : Relation.ReflTransGen EngineStep (init_game impl db da db2 seed) gs) :
    ∀ i, 0 ≤ (gs.player i).mana ∧ (gs.player i).board.length ≤ BOARD_LIMIT := by
  have hInv : Inv gs := by
    induction h with
    | refl => exact init_game_inv impl db da db2 seed
    | tail hsteps hstep ih => exact EngineStep_inv hstep ih
  intro i
  exact ⟨(hInv.player i).1, (hInv.player i).2.2⟩

/-- Witness for C10 at the initial state itself, player 0. -/
theorem C10_witness :
    0 ≤ ((init_game implW [("soldier", soldierW)] deckW deckW 0).player 0).mana
      ∧ ((init_game implW [("soldier", soldierW)] deckW deckW 0).player 0).board.length
          ≤ BOARD_LIMIT :=
  C10_legal_play_invariant implW [("soldier", soldierW)] deckW deckW 0 _
    Relation.ReflTransGen.refl 0

theorem startTurnStep_fst (tel rep : Bool) (gs : GameState) :
    (startTurnStep tel rep gs).1 = (start_turn gs).1
      ∧ (startTurnStep tel rep gs).2.1 = (start_turn gs).2 := by
  simp only [startTurnStep]
  cases h : (start_turn gs).2 <;> simp [h]

theorem endPhase_fst (tel rep : Bool) (gs : GameState) :
    (endPhase tel rep gs).1 = endPhaseS gs := by
  simp only [endPhase, endPhaseS]
  by_cases h : gs.phase = Phase.endp ∨ gs.phase = Phase.main <;> simp [h]

theorem mainLoop_fst (tel rep tr : Bool) (ag : Agents) :
    ∀ (fuel : Nat) (gs : GameState),
      (mainLoop tel rep tr ag fuel gs).map Prod.fst = mainLoopS ag fuel gs := by
  intro fuel
  induction fuel with
  | zero => intro gs; rfl
  | succ fuel ih =>
      intro gs
      simp only [mainLoop, mainLoopS]
      by_cases hc : gs.phase = Phase.main ∧ gs.result = none
      · rw [if_pos hc, if_pos hc]
        cases hl : get_legal_actions gs with
        | none => rfl
        | some legal =>
            simp only
            by_cases he : ag.pick gs.active_player gs legal = Action.EndTurn
            · simp [he]
            · rw [if_neg he, if_neg he]
              cases ha : apply_action gs (ag.pick gs.active_player gs legal) with
              | none => rfl
              | some gs1 =>
                  simp only
                  by_cases hph : gs1.phase = Phase.main
                  · cases hw : check_winner gs1 with
                    | some r => simp [hph, hw]
                    | none =>
                        have hrec := ih gs1
                        cases hm : mainLoop tel rep tr ag fuel gs1 with
                        | none =>
                            rw [hm] at hrec
                            simp [hph, hw, ← hrec]
                        | some res =>
                            rw [hm] at hrec
                            simp [hph, hw, ← hrec]
                  · simp [hph]
      · rw [if_neg hc, if_neg hc]
        simp

theorem attackPhase_fst (tel rep tr : Bool) (ag : Agents) (gs : GameState) :
    (attackPhase tel rep tr ag gs).map Prod.fst = attackPhaseS ag gs := by
  simp only [attackPhase, attackPhaseS]
  by_cases hc : gs.phase = Phase.combat_attack ∧ gs.result = none
  · rw [if_pos hc, if_pos hc]
    cases hl : get_legal_actions gs with
    | none => rfl
    | some legal =>
        simp only
        cases ha : apply_action gs (ag.pick gs.active_player gs legal) with
        | none => rfl
        | some gs1 =>
            simp only
            cases ag.pick gs.active_player gs legal <;> simp
  · rw [if_neg hc, if_neg hc]
    simp

theorem blockPhase_fst (tel rep tr : Bool) (ag : Agents) (gs : GameState) :
    (blockPhase tel rep tr ag gs).map Prod.fst = blockPhaseS ag gs := by
  simp only [blockPhase, blockPhaseS]
  by_cases hc : gs.phase = Phase.combat_block ∧ gs.result = none
  · rw [if_pos hc, if_pos hc]
    cases hl : get_legal_actions gs with
    | none => rfl
    | some legal =>
        simp only
        cases ha : apply_action gs (ag.pick gs.opponent_idx gs legal) with
        | none => rfl
        | some gs1 =>
            simp only
            cases hr : resolve_combat gs1 with
            | none => rfl
            | some rc =>
                simp only
                cases hw : check_winner rc.1 <;> simp
  · rw [if_neg hc, if_neg hc]
    simp

theorem gameLoop_fst (tel rep tr : Bool) (ag : Agents) (ifuel : Nat) :
    ∀ (fuel : Nat) (gs : GameState),
      (gameLoop tel rep tr ag ifuel fuel gs).map Prod.fst = gameLoopS ag ifuel fuel gs := by
  intro fuel
  induction fuel with
  | zero => intro gs; rfl
  | succ fuel ih =>
      intro gs
      simp only [gameLoop, gameLoopS]
      cases hr : gs.result with
      | some r => simp
      | none =>
          simp only
          by_cases ht : MAX_TURNS ≤ gs.turn
          · rw [if_pos ht, if_pos ht]
            simp
          · rw [if_neg ht, if_neg ht]
            obtain ⟨h1, h2⟩ := startTurnStep_fst tel rep gs
            rw [h1, h2]
            cases hs : (start_turn gs).2 with
            | some r => simp
            | none =>
                simp only
                cases hm : mainLoop tel rep tr ag ifuel (start_turn gs).1 with
                | none =>
                    have hmS : mainLoopS ag ifuel (start_turn gs).1 = none := by
                      rw [← mainLoop_fst tel rep tr ag ifuel (start_turn gs).1, hm]
                      rfl
                    simp [hmS]
                | some m1 =>
                    have hmS : mainLoopS ag ifuel (start_turn gs).1 = some m1.1 := by
                      rw [← mainLoop_fst tel rep tr ag ifuel (start_turn gs).1, hm]
                      rfl
                    simp only [hmS]
                    cases ha : attackPhase tel rep tr ag m1.1 with
                    | none =>
                        have haS : attackPhaseS ag m1.1 = none := by
                          rw [← attackPhase_fst tel rep tr ag m1.1, ha]
                          rfl
                        simp [haS]
                    | some m2 =>
                        have haS : attackPhaseS ag m1.1 = some m2.1 := by
                          rw [← attackPhase_fst tel rep tr ag m1.1, ha]
                          rfl
                        simp only [haS]
                        cases hb : blockPhase tel rep tr ag m2.1 with
                        | none =>
                            have hbS : blockPhaseS ag m2.1 = none := by
                              rw [← blockPhase_fst tel rep tr ag m2.1, hb]
                              rfl
                            simp [hbS]
                        | some m3 =>
                            have hbS : blockPhaseS ag m2.1 = some m3.1 := by
                              rw [← blockPhase_fst tel rep tr ag m2.1, hb]
                              rfl
                            simp only [hbS]
                            rw [← endPhase_fst tel rep m3.1]
                            rw [← ih (endPhase tel rep m3.1).1]
                            cases hg : gameLoop tel rep tr ag ifuel fuel
                                (endPhase tel rep m3.1).1 <;> simp

theorem run_game_outcome (tel rep tr : Bool) (ag : Agents) (ifuel fuel : Nat)
    (gs : GameState) :
    (run_game tel rep tr ag ifuel fuel gs).map outcomeOf
      = (gameLoopS ag ifuel fuel gs).map stateOutcome := by
  rw [← gameLoop_fst tel rep tr ag ifuel fuel gs]
  simp only [run_game]
  cases hg : gameLoop tel rep tr ag ifuel fuel gs with
  | none => rfl
  | some res =>
      simp only [Option.map_some]
      cases hres : res.1.result <;> simp [outcomeOf, stateOutcome, hres]

theorem draw_one_rng (gs : GameState) (i : Nat) : (draw_one gs i).1.rng = gs.rng := by
  simp only [draw_one]
  cases h : (gs.player i).deck with
  | nil => rfl
  | cons c rest => simp

theorem updatePlayer_rng (gs : GameState) (i : Nat) (f : PlayerState → PlayerState) :
    (gs.updatePlayer i f).rng = gs.rng := by
  simp [GameState.updatePlayer]

theorem drawN_rng : ∀ (n : Nat) (gs : GameState) (i : Nat), (drawN gs i n).rng = gs.rng := by
  intro n
  induction n with
  | zero => intro gs i; rfl
  | succ n ih =>
      intro gs i
      rw [drawN, ih]
      exact draw_one_rng gs i

theorem resolve_effect_rng (gs : GameState) (i : Nat) (t : String) (p : Params)
    (gs2 : GameState) (happ : resolve_effect gs i t p = some gs2) : gs2.rng = gs.rng := by
  unfold resolve_effect at happ
  split_ifs at happ
  · rw [← Option.some.inj happ]
  · cases hp : p.amount with
    | none => rw [hp] at happ; cases happ
    | some amount =>
        rw [hp] at happ
        rw [← Option.some.inj happ]
        exact updatePlayer_rng gs _ _
  · cases hp : p.n with
    | none => rw [hp] at happ; cases happ
    | some n =>
        rw [hp] at happ
        rw [← Option.some.inj happ]
        exact drawN_rng n gs i
  · cases hp : p.amount with
    | none => rw [hp] at happ; cases happ
    | some amount =>
        rw [hp] at happ
        rw [← Option.some.inj happ]
        exact updatePlayer_rng gs _ _
  · cases hp : p.max_hp with
    | none => rw [hp] at happ; cases happ
    | some max_hp =>
        rw [hp] at happ
        rw [← Option.some.inj happ]
        exact updatePlayer_rng gs _ _

theorem apply_play_card_rng (gs : GameState) (idx : Nat) (gs2 : GameState)
    (h : apply_play_card gs idx = some gs2) : gs2.rng = gs.rng := by
  cases hg : gs.active.hand.get? idx with
  | none =>
      simp only [apply_play_card, hg] at h
      exact Option.noConfusion h
  | some cid =>
      cases hcl : cardLookup gs.card_db cid with
      | none =>
          simp only [apply_play_card, hg, hcl] at h
          exact Option.noConfusion h
      | some card =>
          simp only [apply_play_card, hg, hcl] at h
          by_cases hu : card.is_unit
          · rw [if_pos hu] at h
            rw [resolve_effect_rng _ _ _ _ _ h]
            simp [updatePlayer_rng]
          · rw [if_neg hu] at h
            rw [resolve_effect_rng _ _ _ _ _ h]
            simp [updatePlayer_rng]

theorem apply_action_rng (gs : GameState) (a : Action) (gs2 : GameState)
    (h : apply_action gs a = some gs2) : gs2.rng = gs.rng := by
  cases a with
  | PlayCard idx => exact apply_play_card_rng gs idx gs2 h
  | GoToCombat =>
      simp only [apply_action] at h
      rw [← Option.some.inj h]
  | DeclareAttack uids =>
      simp only [apply_action, apply_declare_attack] at h
      cases hc : gs.combat with
      | none => simp [hc] at h
      | some c =>
          simp only [hc] at h
          by_cases he : uids.isEmpty
          · rw [if_pos he] at h
            rw [← Option.some.inj h]
          · rw [if_neg he] at h
            rw [← Option.some.inj h]
  | DeclareBlock pairs =>
      simp only [apply_action, apply_declare_block] at h
      cases hc : gs.combat with
      | none => simp [hc] at h
      | some c =>
          simp only [hc] at h
          rw [← Option.some.inj h]
  | EndTurn =>
      simp only [apply_action] at h
      rw [← Option.some.inj h]

theorem start_turn_rng (gs : GameState) : (start_turn gs).1.rng = gs.rng := by
  simp only [start_turn]
  split <;> simp [updatePlayer_rng, draw_one_rng]

theorem resolve_combat_rng (gs : GameState) (p : GameState × CombatStats)
    (h : resolve_combat gs = some p) : p.1.rng = gs.rng := by
  unfold resolve_combat at h
  cases hc : gs.combat with
  | none => rw [hc] at h; cases h
  | some c =>
      simp only [hc] at h
      rw [← Option.some.inj h]
      simp [updatePlayer_rng]

theorem mainLoopS_rng (ag : Agents) : ∀ (fuel : Nat) (gs gs2 : GameState),
    mainLoopS ag fuel gs = some gs2 → gs2.rng = gs.rng := by
  intro fuel
  induction fuel with
  | zero => intro gs gs2 h; cases h
  | succ fuel ih =>
      intro gs gs2 h
      simp only [mainLoopS] at h
      by_cases hc : gs.phase = Phase.main ∧ gs.result = none
      · rw [if_pos hc] at h
        cases hl : get_legal_actions gs with
        | none => simp [hl] at h
        | some legal =>
            simp only [hl] at h
            by_cases he : ag.pick gs.active_player gs legal = Action.EndTurn
            · rw [if_pos he] at h
              rw [← Option.some.inj h]
            · rw [if_neg he] at h
              cases ha : apply_action gs (ag.pick gs.active_player gs legal) with
              | none => simp [ha] at h
              | some gs1 =>
                  simp only [ha] at h
                  have hrng := apply_action_rng gs _ gs1 ha
                  by_cases hph : gs1.phase = Phase.main
                  · rw [if_neg (fun hcon => hcon hph)] at h
                    cases hw : check_winner gs1 with
                    | some r =>
                        simp only [hw] at h
                        rw [← Option.some.inj h]
                        exact hrng
                    | none =>
                        simp only [hw] at h
                        rw [ih gs1 gs2 h]
                        exact hrng
                  · rw [if_pos hph] at h
                    rw [← Option.some.inj h]
                    exact hrng
      · rw [if_neg hc] at h
        rw [← Option.some.inj h]

theorem attackPhaseS_rng (ag : Agents) (gs gs2 : GameState)
    (h : attackPhaseS ag gs = some gs2) : gs2.rng = gs.rng := by
  simp only [attackPhaseS] at h
  by_cases hc : gs.phase = Phase.combat_attack ∧ gs.result = none
  · rw [if_pos hc] at h
    cases hl : get_legal_actions gs with
    | none => simp [hl] at h
    | some legal =>
        simp only [hl] at h
        exact apply_action_rng gs _ gs2 h
  · rw [if_neg hc] at h
    rw [← Option.some.inj h]

theorem blockPhaseS_rng (ag : Agents) (gs gs2 : GameState)
    (h : blockPhaseS ag gs = some gs2) : gs2.rng = gs.rng := by
  simp only [blockPhaseS] at h
  by_cases hc : gs.phase = Phase.combat_block ∧ gs.result = none
  · rw [if_pos hc] at h
    cases hl : get_legal_actions gs with
    | none => simp [hl] at h
    | some legal =>
        simp only [hl] at h
        cases ha : apply_action gs (ag.pick gs.opponent_idx gs legal) with
        | none => simp [ha] at h
        | some gs1 =>
            simp only [ha] at h
            cases hr : resolve_combat gs1 with
            | none => simp [hr] at h
            | some rc =>
                simp only [hr] at h
                have hh2 := resolve_combat_rng gs1 rc hr
                have hh1 := apply_action_rng gs _ gs1 ha
                cases hw : check_winner rc.1 with
                | some r =>
                    simp only [hw] at h
                    rw [← Option.some.inj h]
                    show rc.1.rng = gs.rng
                    rw [hh2, hh1]
                | none =>
                    simp only [hw] at h
                    rw [← Option.some.inj h]
                    show rc.1.rng = gs.rng
                    rw [hh2, hh1]
  · rw [if_neg hc] at h
    rw [← Option.some.inj h]

theorem endPhaseS_rng (gs : GameState) : (endPhaseS gs).rng = gs.rng := by
  simp only [endPhaseS]
  split <;> rfl

theorem gameLoopS_rng (ag : Agents) (ifuel : Nat) : ∀ (fuel : Nat) (gs gs2 : GameState),
    gameLoopS ag ifuel fuel gs = some gs2 → gs2.rng = gs.rng := by
  intro fuel
  induction fuel with
  | zero => intro gs gs2 h; cases h
  | succ fuel ih =>
      intro gs gs2 h
      simp only [gameLoopS] at h
      cases hr : gs.result with
      | some r =>
          simp only [hr] at h
          rw [← Option.some.inj h]
      | none =>
          simp only [hr] at h
          by_cases ht : MAX_TURNS ≤ gs.turn
          · rw [if_pos ht] at h
            rw [← Option.some.inj h]
          · rw [if_neg ht] at h
            cases hs : (start_turn gs).2 with
            | some r =>
                simp only [hs] at h
                rw [← Option.some.inj h]
                exact start_turn_rng gs
            | none =>
                simp only [hs] at h
                cases hm : mainLoopS ag ifuel (start_turn gs).1 with
                | none => simp [hm] at h
                | some m1 =>
                    simp only [hm] at h
                    cases ha : attackPhaseS ag m1 with
                    | none => simp [ha] at h
                    | some m2 =>
                        simp only [ha] at h
                        cases hb : blockPhaseS ag m2 with
                        | none => simp [hb] at h
                        | some m3 =>
                            simp only [hb] at h
                            rw [ih (endPhaseS m3) gs2 h, endPhaseS_rng m3,
                              blockPhaseS_rng ag m2 m3 hb, attackPhaseS_rng ag m1 m2 ha,
                              mainLoopS_rng ag ifuel (start_turn gs).1 m1 hm]
                            exact start_turn_rng gs

/-- C1: for every fixed catalog, deck pair, seed and agent pair, the match
is deterministic (two runs are literally equal), and the telemetry, replay
and trace flags change neither the (winner, turns, final HP) outcome nor
any game state produced by the turn loop, and the turn loop never consumes
randomness (the rng state of the final game state equals that of the
initial state, for every flag setting). -/
theorem C1_determinism_and_observer_independence
    (t1 r1 a1 t2 r2 a2 : Bool) (ag : Agents) (ifuel fuel : Nat)
    (impl : RngImpl) (db : List (String × Card)) (da dbb : DeckDef) (seed : Nat) :
    run_game t1 r1 a1 ag ifuel fuel (init_game impl db da dbb seed)
        = run_game t1 r1 a1 ag ifuel fuel (init_game impl db da dbb seed)
    ∧ (run_game t1 r1 a1 ag ifuel fuel (init_game impl db da dbb seed)).map outcomeOf
        = (run_game t2 r2 a2 ag ifuel fuel (init_game impl db da dbb seed)).map outcomeOf
    ∧ (gameLoop t1 r1 a1 ag ifuel fuel (init_game impl db da dbb seed)).map Prod.fst
        = (gameLoop t2 r2 a2 ag ifuel fuel (init_game impl db da dbb seed)).map Prod.fst
    ∧ (gameLoop t1 r1 a1 ag ifuel fuel (init_game impl db da dbb seed)).elim True
        (fun p => p.1.rng = (init_game impl db da dbb seed).rng) := by
  refine ⟨rfl, ?_, ?_, ?_⟩
  · rw [run_game_outcome, run_game_outcome]
  · rw [gameLoop_fst, gameLoop_fst]
  · cases hg : gameLoop t1 r1 a1 ag ifuel fuel (init_game impl db da dbb seed) with
    | none => exact trivial
    | some p =>
        simp only [Option.elim]
        have hS : gameLoopS ag ifuel fuel (init_game impl db da dbb seed) = some p.1 := by
          rw [← gameLoop_fst t1 r1 a1 ag ifuel fuel, hg]
          rfl
        exact gameLoopS_rng ag ifuel fuel _ p.1 hS

end CardBattle

